import Mathlib

/-
Shallow embedding of the text-parsing core of the k12-answer-evaluator
backend, together with proofs about it.

Sources embedded:
  * backend/app/services/answer_parser.py           (class AnswerParser)
  * backend/app/services/question_paper_ocr_service.py
        (QuestionPaperOCRService text-level parsing)
  * backend/app/api/students.py                     (smart answer mapping)

Text is modelled as `List Char` (named `Str` below); Python regular
expressions are modelled by hand-rolled scanning functions that follow
the backtracking behaviour of the concrete patterns appearing in the
source.  Python dicts (which preserve insertion order) are modelled as
association lists with update-in-place semantics (`dset`).
-/

namespace K12

abbrev Str := List Char

/-- Coerce a Lean string literal to the character-list representation. -/
def str (s : String) : Str := s.data

/-- Python whitespace (`str.strip` default set / ASCII part of regex `\s`). -/
def isWS (c : Char) : Bool :=
  c = ' ' || c = '\t' || c = '\n' || c = '\r' || c = '\x0b' || c = '\x0c'

def isDigitC (c : Char) : Bool := '0' ≤ c && c ≤ '9'

/-- ASCII part of regex `\w`: letters, digits, underscore. -/
def isWordC (c : Char) : Bool :=
  ('a' ≤ c && c ≤ 'z') || ('A' ≤ c && c ≤ 'Z') || isDigitC c || c = '_'

def lowerC (c : Char) : Char :=
  if 'A' ≤ c && c ≤ 'Z' then Char.ofNat (c.toNat + 32) else c

def upperC (c : Char) : Char :=
  if 'a' ≤ c && c ≤ 'z' then Char.ofNat (c.toNat - 32) else c

/-- Python `str.strip()` (strip from the left only). -/
def stripL (s : Str) : Str := s.dropWhile isWS

/-- Python `str.strip()` (strip from the right only). -/
def stripR (s : Str) : Str := (s.reverse.dropWhile isWS).reverse

/-- Python `str.strip()`. -/
def strip (s : Str) : Str := stripR (stripL s)

/-- Python `text.split('\n')`: always at least one (possibly empty) piece. -/
def splitLines : Str → List Str
  | [] => [[]]
  | c :: rest =>
    if c = '\n' then [] :: splitLines rest
    else
      match splitLines rest with
      | [] => [[c]]
      | h :: t => (c :: h) :: t

/-- Python `sep.join(pieces)`. -/
def joinWith (sep : Str) : List Str → Str
  | [] => []
  | [l] => l
  | l :: rest => l ++ sep ++ joinWith sep rest

def joinNL : List Str → Str := joinWith ['\n']
def joinSp : List Str → Str := joinWith [' ']

/-- Numeric value of a digit string (the digits have been matched already). -/
def digitsVal (ds : Str) : Nat :=
  ds.foldl (fun a c => 10 * a + (c.toNat - '0'.toNat)) 0

/-- Decimal rendering of a natural number, e.g. `natStr 12 = ['1','2']`. -/
def natStr (n : Nat) : Str := Nat.toDigits 10 n

/-- Case-insensitive literal-pattern match at the head of `s`; on success
returns the remaining suffix.  The pattern is given in lower case. -/
def ciPre : Str → Str → Option Str
  | [], s => some s
  | _, [] => none
  | p :: ps, c :: cs => if lowerC c = p then ciPre ps cs else none

/-- Case-insensitive substring containment (regex `re.search` on a literal). -/
def containsCI (pat : Str) : Str → Bool
  | [] => (ciPre pat []).isSome
  | s@(_ :: rest) => (ciPre pat s).isSome || containsCI pat rest

/- ── Ordered-dict association lists ─────────────────────────────────── -/

/-- Python `d.get(k)` / `k in d`. -/
def dget {α : Type} : List (Nat × α) → Nat → Option α
  | [], _ => none
  | (k, v) :: r, k' => if k = k' then some v else dget r k'

def dmem {α : Type} (d : List (Nat × α)) (k : Nat) : Bool := (dget d k).isSome

/-- Python `d[k] = v`: update in place if the key exists, else append
(insertion order preserved, like a Python dict). -/
def dset {α : Type} : List (Nat × α) → Nat → α → List (Nat × α)
  | [], k, v => [(k, v)]
  | (k0, v0) :: r, k, v =>
    if k0 = k then (k0, v) :: r else (k0, v0) :: dset r k v

/-- Python `d.pop(k)`. -/
def derase {α : Type} : List (Nat × α) → Nat → List (Nat × α)
  | [], _ => []
  | (k0, v0) :: r, k => if k0 = k then r else (k0, v0) :: derase r k

/-- String-keyed variant (for MCQ option maps). -/
def sget {α : Type} : List (Str × α) → Str → Option α
  | [], _ => none
  | (k, v) :: r, k' => if k = k' then some v else sget r k'

def sset {α : Type} : List (Str × α) → Str → α → List (Str × α)
  | [], k, v => [(k, v)]
  | (k0, v0) :: r, k, v =>
    if k0 = k then (k0, v) :: r else (k0, v0) :: sset r k v

/-- Python `dict.update`: fold the right dict into the left one. -/
def supdate {α : Type} (d : List (Str × α)) (d' : List (Str × α)) : List (Str × α) :=
  d'.foldl (fun acc kv => sset acc kv.1 kv.2) d

/- ── regex `\w+` tokenisation (students.py word sets) ────────────────── -/

/-- `re.findall(r'\w+', s)`: maximal runs of word characters. -/
def wordsGo : Str → Str → List Str
  | [], cur => if cur.isEmpty then [] else [cur.reverse]
  | c :: r, cur =>
    if isWordC c then wordsGo r (c :: cur)
    else if cur.isEmpty then wordsGo r [] else cur.reverse :: wordsGo r []

def findWords (s : Str) : List Str := wordsGo s []

def lowerStr (s : Str) : Str := s.map lowerC

/- ════════════════════════════════════════════════════════════════════════
   AnswerParser  (backend/app/services/answer_parser.py)
   ════════════════════════════════════════════════════════════════════════ -/

/-- One match attempt, at the current position, of the multi-column fixup
pattern  `(?<!\n)(?<!\d)\s*(\d{1,2}[\.\)])\s+`  from
`AnswerParser.parse_answers` (the look-behinds are checked by the caller).
On success returns `(captured group, suffix after the match, last matched
character)`; the last character is needed to maintain the look-behind. -/
def colFixHere (s : Str) : Option (Str × Str × Char) :=
  let w := s.takeWhile isWS
  let s1 := s.drop w.length
  let tryDigits : Str → Option (Str × Str) := fun t =>
    match t with
    | d1 :: d2 :: p :: rest =>
      if isDigitC d1 && isDigitC d2 && (p = '.' || p = ')') then
        some ([d1, d2, p], rest)
      else if isDigitC d1 && (d2 = '.' || d2 = ')') then
        some ([d1, d2], p :: rest)
      else none
    | [d1, d2] =>
      if isDigitC d1 && (d2 = '.' || d2 = ')') then some ([d1, d2], []) else none
    | _ => none
  match tryDigits s1 with
  | none => none
  | some (g, rest) =>
    let w2 := rest.takeWhile isWS
    if w2.isEmpty then none
    else some (g, rest.drop w2.length, (w2.getLast?).getD ' ')

/-- Scan loop of the re.sub for the multi-column fixup; `prev` is the
character of the original text just before the current position.
Replacement: `\n` + group + one space. -/
def colFixGo : Nat → Option Char → Str → Str
  | 0, _, s => s
  | fuel + 1, prev, s =>
    match s with
    | [] => []
    | c :: rest =>
      let lookbehindOK :=
        match prev with
        | none => true
        | some p => ¬ (p = '\n') && ¬ (isDigitC p = true)
      if lookbehindOK then
        match colFixHere s with
        | some (g, after, lastc) =>
          '\n' :: g ++ ' ' :: colFixGo fuel (some lastc) after
        | none => c :: colFixGo fuel (some c) rest
      else c :: colFixGo fuel (some c) rest

/-- `re.sub(r'(?<!\n)(?<!\d)\s*(\d{1,2}[\.\)])\s+', r'\n\1 ', " " + text)`. -/
def preprocessAnswerText (t : Str) : Str :=
  let s := ' ' :: t
  colFixGo (s.length + 1) none s

/-- `re.match(r'^\(?([A-D])\)?$', line, re.IGNORECASE)` from
`AnswerParser._try_pure_mcq`, returning the upper-cased letter. -/
def letterOf (l : Str) : Option Char :=
  let l1 := match l with
    | '(' :: r => r
    | other => other
  match l1 with
  | c :: rest =>
    if 'a' ≤ lowerC c && lowerC c ≤ 'd' then
      match rest with
      | [] => some (upperC c)
      | [')'] => some (upperC c)
      | _ => none
    else none
  | [] => none

/-- `AnswerParser._try_pure_mcq`.  The Python threshold
`len(mcq_lines) >= max(3, len(lines) * 0.7)` is modelled with the exact
rational comparison `10*mcq ≥ 7*lines`; at every line count realisable
here the float product `len*0.7` and the rational `7*len/10` sit on the
same side of every integer, so the comparisons agree. -/
def tryPureMcq (t : Str) : List (Nat × Str) :=
  let lines := ((splitLines (strip t)).map strip).filter (fun l => ¬ l.isEmpty)
  let letters := lines.filterMap letterOf
  if letters.length ≥ 3 && 10 * letters.length ≥ 7 * lines.length then
    (letters.zip (List.range letters.length)).map (fun p => (p.2 + 1, [p.1]))
  else []

/-- One marker of the answer-splitting pattern
`^(\s*(?:Q(?:ues(?:tion)?)?|Ans(?:wer)?|Sol(?:ution)?)?[\.\-\s]*\(?)(\d{1,2})([\.\)]\s+)`:
captured groups 1–3 plus the free text up to the next marker. -/
structure Marker where
  pre : Str
  numStr : Str
  suf : Str
  body : Str
  deriving Repr, DecidableEq

/-- Attempt the marker pattern at a line start.  Alternative order of the
optional keyword follows the regex backtracking order.  Returns groups 1-3,
the suffix after the match, and whether the match ended just after a
newline (i.e. at a fresh line start). -/
def markerHere (s : Str) : Option (Str × Str × Str × Str × Bool) :=
  let w := s.takeWhile isWS
  let s1 := s.drop w.length
  let tryName : List Str → Option (Str × Str × Str × Str × Bool) := fun names =>
    names.foldl
      (fun found name =>
        match found with
        | some r => some r
        | none =>
          match ciPre name s1 with
          | none => none
          | some s2 =>
            let nameChars := s1.take name.length
            let run := s2.takeWhile (fun c => c = '.' || c = '-' || isWS c)
            let s3 := s2.drop run.length
            let (brack, s4) := match s3 with
              | '(' :: r => (['('], r)
              | other => (([] : Str), other)
            let tryD : Option (Str × Char × Str) :=
              match s4 with
              | d1 :: d2 :: p :: rest =>
                if isDigitC d1 && isDigitC d2 && (p = '.' || p = ')') then
                  some ([d1, d2], p, rest)
                else if isDigitC d1 && (d2 = '.' || d2 = ')') then
                  some ([d1], d2, p :: rest)
                else none
              | [d1, d2] =>
                if isDigitC d1 && (d2 = '.' || d2 = ')') then some ([d1], d2, [])
                else none
              | _ => none
            match tryD with
            | none => none
            | some (ds, p, rest) =>
              let w2 := rest.takeWhile isWS
              if w2.isEmpty then none
              else
                some (w ++ nameChars ++ run ++ brack, ds, p :: w2,
                      rest.drop w2.length, (w2.getLast?).getD ' ' = '\n'))
      none
  tryName
    [str "question", str "ques", str "q", str "answer", str "ans",
     str "solution", str "sol", []]

/-- Scan loop of `re.split(pattern, "\n" + text, MULTILINE)`: markers are
only matched at line starts; the text before the first marker and the text
after each marker are returned alongside. -/
def smGo : Nat → Bool → Str → Str × List Marker
  | 0, _, _ => ([], [])
  | fuel + 1, atLS, s =>
    match s with
    | [] => ([], [])
    | c :: rest =>
      if atLS then
        match markerHere s with
        | some (g1, g2, g3, after, atLS2) =>
          let (h, ms) := smGo fuel atLS2 after
          ([], ⟨g1, g2, g3, h⟩ :: ms)
        | none =>
          let (h, ms) := smGo fuel (c = '\n') rest
          (c :: h, ms)
      else
        let (h, ms) := smGo fuel (c = '\n') rest
        (c :: h, ms)

/-- `re.split` of the marker pattern over `"\n" + text`. -/
def splitMarkers (t : Str) : Str × List Marker :=
  let s := '\n' :: t
  smGo (s.length + 1) true s

/-- `re.search(r'Q|Ans|Sol', prefix_text, re.IGNORECASE)`. -/
def hasExplicitMarker (p : Str) : Bool :=
  containsCI (str "q") p || containsCI (str "ans") p || containsCI (str "sol") p

/-- Anchored prefix removal
`re.sub(r'^(?:Answer|Ans|Sol(?:ution)?)\s*[:\-]\s*', '', text, IGNORECASE)`;
alternatives tried in regex order. -/
def stripAnswerTag (s : Str) : Str :=
  let tryOne : Str → Option Str := fun name =>
    match ciPre name s with
    | none => none
    | some s1 =>
      let s2 := s1.dropWhile isWS
      match s2 with
      | c :: r => if c = ':' || c = '-' then some (r.dropWhile isWS) else none
      | [] => none
  match tryOne (str "answer") with
  | some r => r
  | none =>
    match tryOne (str "ans") with
    | some r => r
    | none =>
      match tryOne (str "solution") with
      | some r => r
      | none =>
        match tryOne (str "sol") with
        | some r => r
        | none => s

/-- `AnswerParser._convert_mcq_format`. -/
def convertMcqFormat (s : Str) : Str :=
  let st := strip s
  if st = ['1'] then ['A']
  else if st = ['2'] then ['B']
  else if st = ['3'] then ['C']
  else if st = ['4'] then ['D']
  else s

/-- `re.sub(r'\n{3,}', '\n\n', text)`: collapse runs of ≥ 3 newlines. -/
def collapseGo : Nat → Str → Str
  | 0, s => s
  | _, [] => []
  | fuel + 1, c :: rest =>
    if c = '\n' then
      let run := rest.takeWhile (fun d => d = '\n')
      if run.length + 1 ≥ 3 then '\n' :: '\n' :: collapseGo fuel (rest.drop run.length)
      else c :: run ++ collapseGo fuel (rest.drop run.length)
    else c :: collapseGo fuel rest

def collapseBlank (s : Str) : Str := collapseGo (s.length + 1) s

/-- `AnswerParser._clean_answer`. -/
def cleanAnswer (s : Str) : Str :=
  let s1 := strip s
  let s2 := stripAnswerTag s1
  let s3 := convertMcqFormat s2
  strip (collapseBlank s3)

/-- State of the marker-merging loop in `AnswerParser.parse_answers`. -/
structure MState where
  answers : List (Nat × Str)
  currentQ : Option Nat
  seen : List Nat
  preamble : Str
  deriving Repr, DecidableEq

/-- Body of the `for i in range(1, len(parts), 4)` loop. -/
def mergeStep (st : MState) (m : Marker) : MState :=
  let qn := digitsVal m.numStr
  let explicit := hasExplicitMarker m.pre
  let isBullet :=
    match st.currentQ with
    | none => false
    | some cur =>
      ¬ explicit && (st.seen.contains qn || (qn < cur && cur - qn > 3))
  if isBullet then
    let fullText := m.pre ++ m.numStr ++ m.suf ++ m.body
    match st.currentQ with
    | some cur =>
      if dmem st.answers cur then
        let a2 := dset st.answers cur ((dget st.answers cur).getD [] ++ fullText)
        { st with answers := a2 }
      else st
    | none => st
  else
    let a1 := if dmem st.answers qn then st.answers else dset st.answers qn []
    let (a2, pre2) :=
      if ¬ st.preamble.isEmpty then
        (dset a1 qn ((dget a1 qn).getD [] ++ st.preamble ++ ['\n']), ([] : Str))
      else (a1, st.preamble)
    { answers := dset a2 qn ((dget a2 qn).getD [] ++ m.body),
      currentQ := some qn,
      seen := if st.seen.contains qn then st.seen else st.seen ++ [qn],
      preamble := pre2 }

/-- `AnswerParser.parse_answers`. -/
def parseAnswers (t : Str) : List (Nat × Str) :=
  if (strip t).isEmpty then []
  else
    let text := preprocessAnswerText t
    let mcq := tryPureMcq text
    if ¬ mcq.isEmpty then mcq
    else
      let (head, markers) := splitMarkers text
      if markers.isEmpty then [(1, cleanAnswer text)]
      else
        let st0 : MState := ⟨[], none, [], strip head⟩
        let fin := markers.foldl mergeStep st0
        let cleaned := fin.answers.map (fun kv => (kv.1, cleanAnswer kv.2))
        if cleaned.isEmpty then [(1, cleanAnswer text)] else cleaned

/- ════════════════════════════════════════════════════════════════════════
   QuestionPaperOCRService — pattern helpers
   (backend/app/services/question_paper_ocr_service.py)
   ════════════════════════════════════════════════════════════════════════ -/

/-- `(num_questions, marks_per_question, total_marks)` from an
`N x M = T` annotation. -/
structure MarksInfo where
  numQuestions : Nat
  marksPer : Nat
  totalMarks : Nat
  deriving Repr, DecidableEq

/-- One attempt of `(\d+)\s*[xX×]\s*(\d+)\s*=\s*(\d+)` at the current
position (`QuestionPaperOCRService._extract_marks_info`). -/
def marksHere (s : Str) : Option MarksInfo :=
  let d1 := s.takeWhile isDigitC
  if d1.isEmpty then none
  else
    let s1 := (s.drop d1.length).dropWhile isWS
    match s1 with
    | x :: s2 =>
      if x = 'x' || x = 'X' || x = '×' then
        let s3 := s2.dropWhile isWS
        let d2 := s3.takeWhile isDigitC
        if d2.isEmpty then none
        else
          let s4 := (s3.drop d2.length).dropWhile isWS
          match s4 with
          | '=' :: s5 =>
            let s6 := s5.dropWhile isWS
            let d3 := s6.takeWhile isDigitC
            if d3.isEmpty then none
            else some ⟨digitsVal d1, digitsVal d2, digitsVal d3⟩
          | _ => none
      else none
    | [] => none

def scanMarks : Str → Option MarksInfo
  | [] => none
  | s@(_ :: rest) =>
    match marksHere s with
    | some m => some m
    | none => scanMarks rest

/-- `QuestionPaperOCRService._extract_marks_info` (a `re.search`). -/
def extractMarksInfo (l : Str) : Option MarksInfo := scanMarks l

/-- One attempt of `[\[\(]?\s*SECTION\s*[-–—]?\s*([A-E])\s*[\]\)]?`
(IGNORECASE) at the current position. -/
def headerHere (s : Str) : Option Char :=
  let s1 := match s with
    | '[' :: r => r
    | '(' :: r => r
    | other => other
  let s2 := s1.dropWhile isWS
  match ciPre (str "section") s2 with
  | none => none
  | some s3 =>
    let s4 := s3.dropWhile isWS
    let s5 := match s4 with
      | '-' :: r => r
      | '–' :: r => r
      | '—' :: r => r
      | other => other
    let s6 := s5.dropWhile isWS
    match s6 with
    | c :: _ => if 'a' ≤ lowerC c && lowerC c ≤ 'e' then some (upperC c) else none
    | [] => none

def scanHeader : Str → Option Char
  | [] => none
  | s@(_ :: rest) =>
    match headerHere s with
    | some c => some c
    | none => scanHeader rest

/-- `QuestionPaperOCRService._match_section_header`: returns the section
letter together with the inline marks annotation (if any). -/
def matchSectionHeader (l : Str) : Option (String × Option MarksInfo) :=
  (scanHeader l).map (fun c => (String.mk [c], extractMarksInfo l))

/-- A question-start match: source-embedded number and the first text. -/
structure QStart where
  number : Nat
  text : Str
  deriving Repr, DecidableEq

/-- `QuestionPaperOCRService._match_question_start_line`
(`Q1.` / `Q1)` / `Q 1.` / `1.` / `1)`, IGNORECASE, anchored). -/
def matchQuestionStartLine (l : Str) : Option QStart :=
  -- pattern 1: ^Q\.?\s*(\d+)[\.\)]\s*(.*)
  let p1 : Option QStart :=
    match l with
    | c :: r =>
      if lowerC c = 'q' then
        let r1 := match r with
          | '.' :: rr => rr
          | other => other
        let r2 := r1.dropWhile isWS
        let d := r2.takeWhile isDigitC
        if d.isEmpty then none
        else
          match r2.drop d.length with
          | p :: rest =>
            if p = '.' || p = ')' then some ⟨digitsVal d, strip rest⟩ else none
          | [] => none
      else none
    | [] => none
  match p1 with
  | some q => some q
  | none =>
    -- pattern 2: ^Q\s+(\d+)[\.\)]\s*(.*)
    let p2 : Option QStart :=
      match l with
      | c :: r =>
        if lowerC c = 'q' then
          let w := r.takeWhile isWS
          if w.isEmpty then none
          else
            let r2 := r.drop w.length
            let d := r2.takeWhile isDigitC
            if d.isEmpty then none
            else
              match r2.drop d.length with
              | p :: rest =>
                if p = '.' || p = ')' then some ⟨digitsVal d, strip rest⟩ else none
              | [] => none
        else none
      | [] => none
    match p2 with
    | some q => some q
    | none =>
      -- pattern 3: ^(\d+)[\.\)]\s+(.*)
      let d := l.takeWhile isDigitC
      if d.isEmpty then none
      else
        match l.drop d.length with
        | p :: rest =>
          if p = '.' || p = ')' then
            let w := rest.takeWhile isWS
            if w.isEmpty then none
            else some ⟨digitsVal d, strip (rest.drop w.length)⟩
          else none
        | [] => none

/-- A question-with-marks match (fallback plain parser). -/
structure QMarks where
  number : Nat
  text : Str
  marks : Nat
  deriving Repr, DecidableEq

/-- Shared head `Q?\.?\s*(\d+)[\.\)]` (or `(\d+)[\.\)]` when `allowQ` is
false) of the `_match_question_with_marks` patterns.  Returns the number
and the suffix just after the punctuation mark. -/
def headDigits (allowQ : Bool) (l : Str) : Option (Nat × Str) :=
  let s1 := if allowQ then
      (match l with
       | c :: r => if lowerC c = 'q' then r else l
       | [] => l)
    else l
  let s2 := if allowQ then
      (match s1 with
       | '.' :: r => r
       | other => other)
    else s1
  let s3 := if allowQ then s2.dropWhile isWS else s2
  let d := s3.takeWhile isDigitC
  if d.isEmpty then none
  else
    match s3.drop d.length with
    | p :: rest => if p = '.' || p = ')' then some (digitsVal d, rest) else none
    | [] => none

/-- Lazy scan for `\[(\d+)\s*marks?\]` (when `par` is false) or
`\((\d+)\s*marks?\)` (when `par` is true): smallest split of the body such
that the bracketed marks group matches right after it. -/
def lazyMarksScan (par : Bool) : Nat → Str → Str → Option (Str × Nat)
  | 0, _, _ => none
  | fuel + 1, acc, s =>
    let opening := if par then '(' else '['
    let closing := if par then ')' else ']'
    let hereMatch : Option Nat :=
      match s with
      | c :: r =>
        if c = opening then
          let d := r.takeWhile isDigitC
          if d.isEmpty then none
          else
            let r2 := (r.drop d.length).dropWhile isWS
            match ciPre (str "mark") r2 with
            | none => none
            | some r3 =>
              match r3 with
              | e :: r4 =>
                if e = closing then some (digitsVal d)
                else if lowerC e = 's' then
                  match r4 with
                  | f :: _ => if f = closing then some (digitsVal d) else none
                  | [] => none
                else none
              | [] => none
        else none
      | [] => none
    match hereMatch with
    | some m => some (acc.reverse, m)
    | none =>
      match s with
      | [] => none
      | c :: r => lazyMarksScan par fuel (c :: acc) r

/-- Lazy scan for `\((\d+)M\)` (pattern 3 of `_match_question_with_marks`). -/
def lazyMScan : Nat → Str → Str → Option (Str × Nat)
  | 0, _, _ => none
  | fuel + 1, acc, s =>
    let hereMatch : Option Nat :=
      match s with
      | '(' :: r =>
        let d := r.takeWhile isDigitC
        if d.isEmpty then none
        else
          match r.drop d.length with
          | m :: ')' :: _ => if lowerC m = 'm' then some (digitsVal d) else none
          | _ => none
      | _ => none
    match hereMatch with
    | some m => some (acc.reverse, m)
    | none =>
      match s with
      | [] => none
      | c :: r => lazyMScan fuel (c :: acc) r

/-- Suffix `\s+(\d+)\s*marks?$` of pattern 4. -/
def tailMarks (t : Str) : Option Nat :=
  let w := t.takeWhile isWS
  if w.isEmpty then none
  else
    let t1 := t.drop w.length
    let d := t1.takeWhile isDigitC
    if d.isEmpty then none
    else
      let t2 := (t1.drop d.length).dropWhile isWS
      match ciPre (str "mark") t2 with
      | none => none
      | some r =>
        match r with
        | [] => some (digitsVal d)
        | [c] => if lowerC c = 's' then some (digitsVal d) else none
        | _ => none

/-- Lazy scan for pattern 4: smallest split with `\s+(\d+)\s*marks?$`
matching from the split point to the end. -/
def lazyTailScan : Nat → Str → Str → Option (Str × Nat)
  | 0, _, _ => none
  | fuel + 1, acc, s =>
    match tailMarks s with
    | some m => some (acc.reverse, m)
    | none =>
      match s with
      | [] => none
      | c :: r => lazyTailScan fuel (c :: acc) r

/-- Iterate `\s+` lengths from greedy downward (regex backtracking), running
the given lazy scan on the rest each time. -/
def wsBacktrack (scan : Str → Option (Str × Nat)) (run : Str) (rest : Str) :
    Nat → Option (Str × Nat)
  | 0 => none
  | k + 1 =>
    match scan (run.drop (k + 1) ++ rest) with
    | some r => some r
    | none => wsBacktrack scan run rest k

/-- `QuestionPaperOCRService._match_question_with_marks`: the four
marks-bearing patterns in source order, then the 1-mark fallback. -/
def matchQuestionWithMarks (l : Str) : Option QMarks :=
  -- patterns 1 and 2: Q?\.?\s*(\d+)[\.\)]\s+(.*?)[\[\(](\d+)\s*marks?[\]\)]
  let p12 : Bool → Option QMarks := fun par =>
    match headDigits true l with
    | none => none
    | some (n, rest) =>
      let w := rest.takeWhile isWS
      if w.isEmpty then none
      else
        let body := rest.drop w.length
        match lazyMarksScan par (body.length + 1) [] body with
        | some (t, m) => some ⟨n, strip t, m⟩
        | none => none
  match p12 false with
  | some q => some q
  | none =>
  match p12 true with
  | some q => some q
  | none =>
    -- pattern 3: ^(\d+)[\.\)]\s+(.*?)\((\d+)M\)
    let p3 : Option QMarks :=
      match headDigits false l with
      | none => none
      | some (n, rest) =>
        let w := rest.takeWhile isWS
        if w.isEmpty then none
        else
          let body := rest.drop w.length
          match lazyMScan (body.length + 1) [] body with
          | some (t, m) => some ⟨n, strip t, m⟩
          | none => none
    match p3 with
    | some q => some q
    | none =>
      -- pattern 4: ^(\d+)[\.\)]\s+(.*?)\s+(\d+)\s*marks?$
      let p4 : Option QMarks :=
        match headDigits false l with
        | none => none
        | some (n, rest) =>
          let w := rest.takeWhile isWS
          if w.isEmpty then none
          else
            let body := rest.drop w.length
            match wsBacktrack
                (fun b => lazyTailScan (b.length + 1) [] b) w body w.length with
            | some (t, m) => some ⟨n, strip t, m⟩
            | none => none
      match p4 with
      | some q => some q
      | none =>
        -- fallback: ^Q?\.?\s*(\d+)[\.\)]\s+(.+)  with marks = 1
        match headDigits true l with
        | none => none
        | some (n, rest) =>
          let w := rest.takeWhile isWS
          if w.isEmpty then none
          else
            let rem := rest.drop w.length
            if ¬ rem.isEmpty then some ⟨n, strip rem, 1⟩
            else if w.length ≥ 2 then some ⟨n, [], 1⟩
            else none

/- ── MCQ option lines ─────────────────────────────────────────────────── -/

/-- Result of `QuestionPaperOCRService._parse_options_from_line`. -/
structure OptResult where
  options : List (Str × Str)
  correct : Option Str
  deriving Repr, DecidableEq

/-- Look-ahead `(?=\s*\([A-D]\)|$)` of the all-on-one-line option pattern. -/
def optLookahead (t : Str) : Bool :=
  (match t.dropWhile isWS with
   | '(' :: x :: ')' :: _ => 'A' ≤ x && x ≤ 'D'
   | _ => false) ||
  t.isEmpty

/-- Lazy `([^(]+?)` with the look-ahead above: expand at least one
non-`(` character, checking the look-ahead after every character. -/
def optValueScan : Nat → Str → Str → Option (Str × Str)
  | 0, _, _ => none
  | fuel + 1, acc, s =>
    match s with
    | [] => none
    | c :: r =>
      if c = '(' then none
      else if optLookahead r then some ((c :: acc).reverse, r)
      else optValueScan fuel (c :: acc) r

/-- One attempt of `\(([A-D])\)\s+([^(]+?)(?=\s*\([A-D]\)|$)` at the current
position, with `\s+` backtracking from greedy downward. -/
def multiOptHere (s : Str) : Option (Char × Str × Str) :=
  match s with
  | '(' :: x :: ')' :: rest =>
    if 'A' ≤ x && x ≤ 'D' then
      let w := rest.takeWhile isWS
      if w.isEmpty then none
      else
        let afterW := rest.drop w.length
        let rec tryK : Nat → Option (Str × Str)
          | 0 => none
          | k + 1 =>
            match optValueScan (rest.length + 1) [] (w.drop (k + 1) ++ afterW) with
            | some r => some r
            | none => tryK k
        match tryK w.length with
        | some (v, after) => some (x, v, after)
        | none => none
    else none
  | _ => none

/-- `re.findall` scan for the all-on-one-line option pattern. -/
def findMultiOpts : Nat → Str → List (Char × Str)
  | 0, _ => []
  | fuel + 1, s =>
    match s with
    | [] => []
    | _ :: rest =>
      match multiOptHere s with
      | some (x, v, after) => (x, v) :: findMultiOpts fuel after
      | none => findMultiOpts fuel rest

/-- Marker handling shared by the three option branches: detect `*`/`✓`,
strip marker characters, and strip. -/
def stripOptMarker (letter : Str) (v : Str) : Str × Option Str :=
  let vc := strip v
  if vc.contains '*' || vc.contains '✓' then
    (strip (vc.filter (fun c => ¬ (c = '*' || c = '✓' || c = '[' || c = ']'))),
     some letter)
  else (vc, none)

/-- `^([A-D])[\.\)]\s+(.+)` (single option per line; upper-case only) and
`^([1-4])[\.\)]\s+(.+)` (numbered option) share this shape. -/
def singleOptLine (isLetter : Char → Bool) (toLetter : Char → Char) (l : Str) :
    Option (Str × Str) :=
  match l with
  | x :: p :: rest =>
    if isLetter x && (p = '.' || p = ')') then
      let w := rest.takeWhile isWS
      if w.isEmpty then none
      else
        let rem := rest.drop w.length
        if ¬ rem.isEmpty then some ([toLetter x], rem)
        else if w.length ≥ 2 then some ([toLetter x], [(w.getLast?).getD ' '])
        else none
    else none
  | _ => none

/-- `QuestionPaperOCRService._parse_options_from_line`. -/
def parseOptionsFromLine (l : Str) : Option OptResult :=
  let multi := findMultiOpts (l.length + 1) l
  if ¬ multi.isEmpty then
    let folded := multi.foldl
      (fun (acc : List (Str × Str) × Option Str) kv =>
        let (vc, hit) := stripOptMarker [kv.1] kv.2
        (sset acc.1 [kv.1] vc, match hit with | some c => some c | none => acc.2))
      ([], none)
    some ⟨folded.1, folded.2⟩
  else
    match singleOptLine (fun c => 'A' ≤ c && c ≤ 'D') id l with
    | some (letter, v) =>
      let (vc, hit) := stripOptMarker letter v
      some ⟨[(letter, vc)], hit⟩
    | none =>
      match singleOptLine (fun c => '1' ≤ c && c ≤ '4')
          (fun c => Char.ofNat (64 + (c.toNat - '0'.toNat))) l with
      | some (letter, v) =>
        let (vc, hit) := stripOptMarker letter v
        some ⟨[(letter, vc)], hit⟩
      | none => none

/- ── Assertion / Reason detection ─────────────────────────────────────── -/

/-- `\(?A\)?[:\s]` tail (after "Assertion"/"Reason"), with the regex
backtracking over the optional parentheses. -/
def arTail (letter : Char) (s : Str) : Bool :=
  let s1 := s.dropWhile isWS
  let core : Str → Bool := fun t =>
    match t with
    | c :: r =>
      if lowerC c = letter then
        match r with
        | ')' :: d :: _ => d = ':' || isWS d
        | d :: _ => d = ':' || isWS d
        | [] => false
      else false
    | [] => false
  match s1 with
  | '(' :: r => core r
  | other => core other

/-- `re.search(r'Assertion\s*\(?A\)?[:\s]', text, IGNORECASE)`. -/
def assertScan : Str → Bool
  | [] => false
  | s@(_ :: rest) =>
    (match ciPre (str "assertion") s with
     | some r => arTail 'a' r
     | none => false) ||
    assertScan rest

def isAssertionStart (t : Str) : Bool := assertScan t

/-- `re.search(r'^Reason\s*\(?R\)?[:\s]', line.strip(), IGNORECASE)`
(anchored, since the pattern starts with `^` and MULTILINE is off). -/
def isReasonLine (l : Str) : Bool :=
  match ciPre (str "reason") (strip l) with
  | some r => arTail 'r' r
  | none => false

/-- `re.search(r'\([A-D]\)\s+\S', text)` from `_determine_type`. -/
def hasInlineOpt : Str → Bool
  | [] => false
  | s@(_ :: rest) =>
    (match s with
     | '(' :: x :: ')' :: r =>
       if 'A' ≤ x && x ≤ 'D' then
         let w := r.takeWhile isWS
         ¬ w.isEmpty && ¬ (r.drop w.length).isEmpty
       else false
     | _ => false) ||
    hasInlineOpt rest

/- ── `_preserve_math` ─────────────────────────────────────────────────── -/

/-- Pass for `re.sub(r'(\w)\^([\w\d]+)', r'\1^{\2}')` (and the `_`
variant, selected by `mark`). -/
def mathBraceGo (mark : Char) : Nat → Str → Str
  | 0, s => s
  | _ + 1, [] => []
  | fuel + 1, c :: rest =>
    if isWordC c then
      match rest with
      | m :: r2 =>
        if m = mark then
          let run := r2.takeWhile isWordC
          if run.isEmpty then c :: mathBraceGo mark fuel rest
          else c :: mark :: '{' :: run ++ '}' :: mathBraceGo mark fuel (r2.drop run.length)
        else c :: mathBraceGo mark fuel rest
      | [] => [c]
    else c :: mathBraceGo mark fuel rest

/-- One function-name pass of
`re.sub(rf'{fn}\^{{?(-?\d+)}}?', rf'{fn}^\1', text)`. -/
def mathFnGo (fn : Str) : Nat → Str → Str
  | 0, s => s
  | _ + 1, [] => []
  | fuel + 1, s@(c :: rest) =>
    let hereMatch : Option (Str × Str) :=
      match List.isPrefixOf fn s, s.drop fn.length with
      | true, '^' :: r1 =>
        let parseNum : Str → Option (Str × Str) := fun t =>
          let (sign, t1) := match t with
            | '-' :: tt => (['-'], tt)
            | other => (([] : Str), other)
          let d := t1.takeWhile isDigitC
          if d.isEmpty then none
          else
            let t2 := t1.drop d.length
            let t3 := match t2 with
              | '}' :: tt => tt
              | other => other
            some (sign ++ d, t3)
        (match r1 with
         | '{' :: r2 =>
           match parseNum r2 with
           | some (num, after) => some (num, after)
           | none => none
         | other => parseNum other)
      | _, _ => none
    match hereMatch with
    | some (num, after) => fn ++ '^' :: num ++ mathFnGo fn fuel after
    | none => c :: mathFnGo fn fuel rest

/-- `QuestionPaperOCRService._preserve_math`. -/
def preserveMath (t : Str) : Str :=
  let t1 := mathBraceGo '^' (t.length + 1) t
  let t2 := mathBraceGo '_' (t1.length + 1) t1
  [str "sin", str "cos", str "tan", str "cot", str "sec", str "cosec",
   str "log", str "ln"].foldl (fun s fn => mathFnGo fn (s.length + 1) s) t2

/-- `re.search(r'\bOR\b|\(OR\)|\[OR\]', text)`: the bracketed alternatives
are subsumed by the word-boundary one, so this is a standalone-`OR` scan. -/
def detectOrGo (prev : Option Char) : Str → Bool
  | 'O' :: 'R' :: rest =>
    ((match prev with | none => true | some p => ¬ isWordC p) &&
     (match rest with | [] => true | c :: _ => ¬ isWordC c)) ||
    detectOrGo (some 'O') ('R' :: rest)
  | c :: rest => detectOrGo (some c) rest
  | [] => false

def detectOr (t : Str) : Bool := detectOrGo none t

/- ── CBSE section configuration ───────────────────────────────────────── -/

/-- One entry of `CBSE_PHYSICS_SECTION_CONFIG` (`ar` is optional because
only Section A carries the `ar_questions` key). -/
structure DefCfg where
  marks : Nat
  num : Nat
  primary : String
  ar : Option Nat
  internal : Bool
  deriving Repr, DecidableEq

def sectionDefaults : String → Option DefCfg
  | "A" => some ⟨1, 16, "mcq", some 4, false⟩
  | "B" => some ⟨2, 5, "short", none, true⟩
  | "C" => some ⟨3, 7, "short", none, true⟩
  | "D" => some ⟨4, 2, "case_study", none, true⟩
  | "E" => some ⟨5, 3, "long", none, true⟩
  | _ => none

/-- `CBSE_SECTION_MARKS_FALLBACK.get(section, 1)`. -/
def fallbackMarks : String → Nat
  | "A" => 1
  | "B" => 2
  | "C" => 3
  | "D" => 4
  | "E" => 5
  | _ => 1

/-- The `section_cfg` dict built in `_parse_section_based`. -/
structure SectionCfg where
  sec : String
  marksPerQuestion : Nat
  numQuestions : Nat
  primaryType : String
  arQuestions : Nat
  internalChoice : Bool
  deriving Repr, DecidableEq

/-- Construction of `section_cfg` from the defaults table, the fallback
table and an optional inline `N x M = T` annotation. -/
def buildCfg (sec : String) (mi : Option MarksInfo) : SectionCfg :=
  let d := sectionDefaults sec
  { sec := sec
    marksPerQuestion :=
      match mi with
      | some m => m.marksPer
      | none => match d with
        | some dc => dc.marks
        | none => fallbackMarks sec
    numQuestions :=
      match mi with
      | some m => m.numQuestions
      | none => match d with
        | some dc => dc.num
        | none => 99
    primaryType := match d with
      | some dc => dc.primary
      | none => "short"
    arQuestions := match d with
      | some dc => dc.ar.getD 0
      | none => 0
    internalChoice := match d with
      | some dc => dc.internal
      | none => false }

/-- `QuestionPaperOCRService._infer_type_from_marks`. -/
def inferTypeFromMarks (marks : Nat) : String :=
  if marks = 1 then "mcq"
  else if marks = 4 then "case_study"
  else if marks ≥ 5 then "long"
  else "short"

/-- `QuestionPaperOCRService._get_physics_marks_by_number`. -/
def physicsMarksByNumber (n : Nat) : Nat :=
  if 1 ≤ n ∧ n ≤ 16 then 1
  else if 17 ≤ n ∧ n ≤ 21 then 2
  else if 22 ≤ n ∧ n ≤ 28 then 3
  else if 29 ≤ n ∧ n ≤ 30 then 4
  else if 31 ≤ n ∧ n ≤ 33 then 5
  else 1

/-- `QuestionPaperOCRService._determine_type`. -/
def determineType (text : Str) (options : List (Str × Str)) (marks : Nat)
    (secL : Option String) (sectionQIndex : Nat)
    (sectionCfg : Option SectionCfg) : String :=
  if secL = some "A" then
    if sectionQIndex ≥ 12 then "assertion_reason"
    else if isAssertionStart text then "assertion_reason"
    else "mcq"
  else if options.length ≥ 2 then "mcq"
  else if hasInlineOpt text then "mcq"
  else if isAssertionStart text then "assertion_reason"
  else
    match sectionCfg with
    | some c => c.primaryType
    | none => inferTypeFromMarks marks

/- ════════════════════════════════════════════════════════════════════════
   QuestionPaperOCRService — section-based parser
   ════════════════════════════════════════════════════════════════════════ -/

/-- One emitted question dict. -/
structure Question where
  number : Nat
  text : Str
  marks : Nat
  qtype : String
  sectionTag : Option String
  hasDiagram : Bool
  hasOr : Bool
  options : Option (List (Str × Str))
  correct : Option Str
  deriving Repr, DecidableEq

/-- The `self._temp_correct` dict (missing attribute ≡ empty dict). -/
abbrev TempC := List (Nat × Str)

/-- The mutable state of `_parse_section_based` (locals of the scan loop
plus the cross-call `_temp_correct` attribute). -/
structure PState where
  questions : List Question
  currentSection : Option String
  sectionCfg : Option SectionCfg
  sectionQCount : Nat
  curLines : List Str
  curOptions : List (Str × Str)
  inAr : Bool
  afterOr : Bool
  orPrevQNum : Option Nat
  globalQNum : Nat
  tempCorrect : TempC
  deriving Repr, DecidableEq

def initState (tc : TempC) : PState :=
  ⟨[], none, none, 0, [], [], false, false, none, 1, tc⟩

/-- Replace the last element of a list (used for the OR merge, which
mutates `questions[-1]` in place). -/
def updateLast {α : Type} (f : α → α) : List α → List α
  | [] => []
  | [a] => [f a]
  | a :: rest => a :: updateLast f rest

/-- The OR-alternative merge performed on `questions[-1]` by `flush`
when `is_or_alt` holds and a previous question exists. -/
def mergeOrAlt (rawText : Str) (curOptions : List (Str × Str)) (q : Question) :
    Question :=
  let q1 := { q with text := q.text ++ str "\nOR\n" ++ preserveMath rawText,
                     hasOr := true }
  if ¬ curOptions.isEmpty then
    let po := q1.options.getD []
    let po2 := curOptions.foldl (fun acc kv => sset acc (str "OR_" ++ kv.1) kv.2) po
    { q1 with options := some po2 }
  else q1

/-- The marks the flushed question receives
(`section_cfg['marks_per_question'] if section_cfg else 1`). -/
def flushMarks (s : PState) : Nat :=
  match s.sectionCfg with
  | some c => c.marksPerQuestion
  | none => 1

/-- The question dict appended by the non-merge branch of `flush`. -/
def mkQuestion (s : PState) (rawText : Str) : Question :=
  { number := s.globalQNum
    text := preserveMath rawText
    marks := flushMarks s
    qtype := determineType rawText s.curOptions (flushMarks s) s.currentSection
        s.sectionQCount s.sectionCfg
    sectionTag := s.currentSection
    hasDiagram := false
    hasOr := false
    options := if s.curOptions.isEmpty then none else some s.curOptions
    correct := dget s.tempCorrect s.globalQNum }

/-- `_temp_correct` after the pop in the non-merge branch of `flush`. -/
def popTemp (s : PState) : TempC :=
  match dget s.tempCorrect s.globalQNum with
  | some _ => derase s.tempCorrect s.globalQNum
  | none => s.tempCorrect

/-- The nested `flush` helper of `_parse_section_based`. -/
def flush (isOrAlt : Bool) (s : PState) : PState :=
  if s.curLines.isEmpty then s
  else if (strip (joinSp s.curLines)).isEmpty then
    { s with curLines := [], curOptions := [], inAr := false }
  else if isOrAlt ∧ ¬ s.questions.isEmpty then
    { s with
      questions := updateLast (mergeOrAlt (strip (joinSp s.curLines)) s.curOptions) s.questions,
      curLines := [], curOptions := [], inAr := false }
  else
    { s with questions := s.questions ++ [mkQuestion s (strip (joinSp s.curLines))]
             globalQNum := s.globalQNum + 1
             sectionQCount := s.sectionQCount + 1
             tempCorrect := popTemp s
             curLines := [], curOptions := [], inAr := false }

/-- `N x M = T` lookup over the next (up to) four raw lines following a
section header. -/
def peekMarks (peek : List Str) : Option MarksInfo :=
  ((peek.take 4).filterMap (fun l => extractMarksInfo (strip l))).head?

/-- Inline annotation if present, else the peeked one. -/
def resolveMarks (mi : Option MarksInfo) (peek : List Str) : Option MarksInfo :=
  match mi with
  | some m => some m
  | none => peekMarks peek

/-- The section-header branch of the scan loop. -/
def sectionHeaderStep (s : PState) (secL : String) (mi : Option MarksInfo)
    (peek : List Str) : PState :=
  { flush s.afterOr s with
    afterOr := false
    sectionQCount := 0
    currentSection := some secL
    sectionCfg := some (buildCfg secL (resolveMarks mi peek)) }

/-- `re.match(r'^\s*(OR|or)\s*$', line)` on the (already stripped) line. -/
def isOrLine (l : Str) : Bool := strip l = str "OR" || strip l = str "or"

/-- The standalone-`OR` branch. -/
def orLineStep (s : PState) : PState :=
  match s.sectionCfg with
  | some cfg =>
    if cfg.internalChoice && ¬ s.curLines.isEmpty then
      { flush false s with afterOr := true }
    else s
  | none => s

/-- `flush` guarded by `if cur_lines:` (as in the source, where the flush
calls inside the question-start branch are guarded). -/
def flushIf (b : Bool) (s : PState) : PState :=
  if ¬ s.curLines.isEmpty then flush b s else s

/-- A normal (non-OR) question start. -/
def normalStart (s : PState) (q : QStart) : PState :=
  { flushIf false s with
    afterOr := false
    orPrevQNum := some q.number
    curLines := [q.text]
    curOptions := []
    inAr := isAssertionStart q.text }

/-- The question-start branch (with the OR-alternative bookkeeping). -/
def qStartStep (s : PState) (q : QStart) (remSlots : Int) : PState :=
  if s.afterOr then
    if s.orPrevQNum = none ∨ s.orPrevQNum = some q.number then
      { flushIf true s with
        curLines := [q.text]
        curOptions := []
        inAr := isAssertionStart q.text }
    else if remSlots ≤ 0 then
      { flushIf true s with afterOr := false, orPrevQNum := none }
    else
      normalStart { flushIf true s with afterOr := false, orPrevQNum := none } q
  else normalStart s q

/-- The option-line / continuation branch (only reached when a question is
being accumulated). -/
def contStep (s : PState) (line : Str) : PState :=
  if s.curLines.isEmpty then s
  else
    match parseOptionsFromLine line with
    | some r =>
      if r.correct.isSome && s.questions.isEmpty then
        { s with curOptions := supdate s.curOptions r.options,
                 tempCorrect := dset s.tempCorrect s.globalQNum (r.correct.getD []) }
      else { s with curOptions := supdate s.curOptions r.options }
    | none =>
      { s with curLines := s.curLines ++ [line],
               inAr := s.inAr || isReasonLine line }

/-- Processing of one (already stripped) line inside a section. -/
def inSectionStep (s : PState) (cfg : SectionCfg) (line : Str) : PState :=
  match matchQuestionStartLine line with
  | some q =>
    if ((cfg.numQuestions : Int) - (s.sectionQCount : Int)) > 0 ∨ s.afterOr then
      qStartStep s q ((cfg.numQuestions : Int) - (s.sectionQCount : Int))
    else contStep s line
  | none => contStep s line

/-- Processing of one raw line; `peek` is the list of following raw lines
(used by the section-header marks lookup). -/
def processLine (s : PState) (raw : Str) (peek : List Str) : PState :=
  if (strip raw).isEmpty then s
  else
    match matchSectionHeader (strip raw) with
    | some (secL, mi) => sectionHeaderStep s secL mi peek
    | none =>
      if (extractMarksInfo (strip raw)).isSome && s.curLines.isEmpty then s
      else if isOrLine (strip raw) then orLineStep s
      else
        match s.sectionCfg with
        | none => s
        | some cfg => inSectionStep s cfg (strip raw)

/-- The scan loop over all lines. -/
def go (s : PState) : List Str → PState
  | [] => s
  | l :: rest => go (processLine s l rest) rest

/-- `_parse_section_based` including the final flush
(`if cur_lines: flush(is_or_alt=after_or)`), returning the full end
state. -/
def runSection (tc : TempC) (t : Str) : PState :=
  flushIf (go (initState tc) (splitLines t)).afterOr (go (initState tc) (splitLines t))

/-- The questions emitted by the section-based parser. -/
def sectionQuestions (tc : TempC) (t : Str) : List Question :=
  (runSection tc t).questions

/-- `QuestionPaperOCRService._parse_section_based`
(`questions if questions else None`), with the `_temp_correct` attribute
threaded through. -/
def parseSectionBasedSt (tc : TempC) (t : Str) : Option (List Question) × TempC :=
  let s := runSection tc t
  ((if s.questions.isEmpty then none else some s.questions), s.tempCorrect)

/- ── Fallback plain parser ────────────────────────────────────────────── -/

/-- Close the accumulating question of `_parse_plain_questions`. -/
def finishPlain (q : Question) (txt : List Str) : Question :=
  let qt := strip (joinSp txt)
  { q with text := preserveMath qt, hasOr := detectOr qt }

def plainGo (cur : Option (Question × List Str)) : List Str → List Question
  | [] =>
    match cur with
    | none => []
    | some (q, txt) => [finishPlain q txt]
  | raw :: rest =>
    let line := strip raw
    if line.isEmpty then plainGo cur rest
    else
      match matchQuestionWithMarks line with
      | some m =>
        let newQ : Question :=
          { number := m.number
            text := []
            marks := m.marks
            qtype := inferTypeFromMarks m.marks
            sectionTag := none
            hasDiagram := false
            hasOr := false
            options := none
            correct := none }
        match cur with
        | none => plainGo (some (newQ, [m.text])) rest
        | some (q, txt) => finishPlain q txt :: plainGo (some (newQ, [m.text])) rest
      | none =>
        match cur with
        | none => plainGo none rest
        | some (q, txt) => plainGo (some (q, txt ++ [line])) rest

/-- `QuestionPaperOCRService._parse_plain_questions`. -/
def parsePlainQuestions (t : Str) : List Question := plainGo none (splitLines t)

/-- The physics-marks override applied by `_parse_questions` on the
fallback path. -/
def applyPhysics (qs : List Question) : List Question :=
  qs.map (fun q =>
    let m := physicsMarksByNumber q.number
    { q with marks := m, qtype := inferTypeFromMarks m })

/-- `QuestionPaperOCRService._parse_questions`, with the `_temp_correct`
attribute of the service object threaded through (it survives between
invocations on the same object). -/
def parseQuestionsSt (tc : TempC) (t : Str) : List Question × TempC :=
  let s := runSection tc t
  if s.questions.isEmpty then (applyPhysics (parsePlainQuestions t), s.tempCorrect)
  else (s.questions, s.tempCorrect)

/-- `_parse_questions` on a freshly constructed service object. -/
def parseQuestions (t : Str) : List Question := (parseQuestionsSt [] t).1

/- ════════════════════════════════════════════════════════════════════════
   students.py — smart answer mapping (reconciliation)
   ════════════════════════════════════════════════════════════════════════ -/

/-- The fields of a stored paper question used by the reconciler. -/
structure RQ where
  number : Nat
  text : Str
  deriving Repr, DecidableEq

/-- Lower-cased `\w+` word set of a text (Python builds `set(...)`;
distinctness is what matters for intersection sizes). -/
def wordSet (s : Str) : List Str := (findWords (lowerStr s)).dedup

/-- `len(ans_words & q_words)`. -/
def overlapScore (ansWords : List Str) (q : RQ) : Nat :=
  (ansWords.filter (fun w => (wordSet q.text).contains w)).length

/-- The `for q in unmapped_questions` best-score loop: first strict
maximum, returned as an index into the pool. -/
def pickBest (ansWords : List Str) (uqs : List RQ) : Option Nat :=
  (uqs.foldl
    (fun (acc : Nat × Option (Nat × Nat)) q =>
      let sc := overlapScore ansWords q
      let keep := match acc.2 with
        | none => true
        | some (_, bs) => sc > bs
      (acc.1 + 1, if keep then some (acc.1, sc) else acc.2))
    (0, none)).2.map (fun p => p.1)

/-- The reassignment loop over `unmapped_answers` (`total` is the fixed
`len(unmapped_answers)` tested by the single-orphan shortcut). -/
def assignLoop (total : Nat) (m : List (Nat × Str)) (uqs : List RQ) :
    List Str → List (Nat × Str)
  | [] => m
  | v :: rest =>
    if uqs.isEmpty then m
    else if total = 1 ∧ uqs.length = 1 then
      match uqs with
      | q :: _ => dset m q.number v
      | [] => m
    else
      match pickBest (wordSet v) uqs with
      | some i =>
        match uqs.get? i with
        | some q => assignLoop total (dset m q.number v) (uqs.eraseIdx i) rest
        | none => assignLoop total m uqs rest
      | none => assignLoop total m uqs rest

/-- The direct-match pass: `mapped_answers` entries whose number exists in
the paper, plus the `unmapped_answers` list, in draft order. -/
def directSplit (questions : List RQ) (parsed : List (Nat × Str)) :
    List (Nat × Str) × List Str :=
  parsed.foldl
    (fun (acc : List (Nat × Str) × List Str) kv =>
      if questions.any (fun q => q.number = kv.1) then
        (dset acc.1 kv.1 kv.2, acc.2)
      else (acc.1, acc.2 ++ [kv.2]))
    ([], [])

/-- The smart answer mapping block of `students.py::process_submission*`:
direct matches, then greedy lexical-overlap reassignment; whatever is left
when the question pool empties is dropped. -/
def smartAnswerMapping (questions : List RQ) (parsed : List (Nat × Str)) :
    List (Nat × Str) :=
  assignLoop (directSplit questions parsed).2.length
    (directSplit questions parsed).1
    (questions.filter (fun q => ¬ dmem (directSplit questions parsed).1 q.number))
    (directSplit questions parsed).2

/- ════════════════════════════════════════════════════════════════════════
   Flat rendering (input construction for the round-trip claim)
   ════════════════════════════════════════════════════════════════════════ -/

/-- One line of the flat `"<n>. <text> (<m> marks)"` rendering named by the
spec round-trip property (input construction, not source code). -/
def renderLine (q : Question) : Str :=
  natStr q.number ++ str ". " ++ q.text ++ str " (" ++ natStr q.marks ++ str " marks)"

/-- The flat rendering of a previously parsed paper. -/
def renderFlat (qs : List Question) : Str := joinNL (qs.map renderLine)

/-- A question with its `correct_answer` field erased (for the
state-independence theorem). -/
def eraseCorrect (q : Question) : Question := { q with correct := none }

/-- The non-empty stripped lines considered by `_try_pure_mcq`
(the `lines` local of the Python function). -/
def mcqLines (t : Str) : List Str :=
  ((splitLines (strip t)).map strip).filter (fun l => ¬ l.isEmpty)

/-- The single-option-letter lines among them (the `mcq_lines` local,
reduced to the matched letters). -/
def mcqLetters (t : Str) : List Char := (mcqLines t).filterMap letterOf

/- ════════════════════════════════════════════════════════════════════════
   Theorems
   ════════════════════════════════════════════════════════════════════════ -/

/-- Claim C1, counterexample: on the no-section-header fallback path the
parser recognizes exactly one question start in
`"5. What is X? (2 marks)"` but emits it with the source-embedded number
5, not with sequential number 1. -/
theorem C1_fallback_number_counterexample :
    (parseQuestions (str "5. What is X? (2 marks)")).length = 1 ∧
    (parseQuestions (str "5. What is X? (2 marks)")).map (fun q => q.number) ≠ [1] := by
  decide

/-- Claim C2, counterexample: a one-question Section B paper parses with
marks 2, but re-parsing its flat `"<n>. <text> (<m> marks)"` rendering
goes through the fallback path, which overwrites the marks with the
physics-by-number table value 1.  The question count survives the round
trip, the marks do not. -/
theorem C2_roundtrip_counterexample :
    (parseQuestions (renderFlat (parseQuestions (str "SECTION B\nQ1. Explain induction")))).length =
      (parseQuestions (str "SECTION B\nQ1. Explain induction")).length ∧
    (parseQuestions (str "SECTION B\nQ1. Explain induction")).map (fun q => q.marks) = [2] ∧
    (parseQuestions (renderFlat (parseQuestions (str "SECTION B\nQ1. Explain induction")))).map
      (fun q => q.marks) = [1] := by
  decide

/-- Claim C3, counterexample: the number of discarded answers is not part
of (nor recoverable from) the reconciliation output: two draft maps with
different numbers of unattributable answers produce identical outputs, so
no count is returned alongside the repaired map. -/
theorem C3_no_count_counterexample :
    smartAnswerMapping [⟨1, str "alpha"⟩] [(1, str "x")] =
      smartAnswerMapping [⟨1, str "alpha"⟩] [(1, str "x"), (9, str "y")] ∧
    ([(1, str "x")] : List (Nat × Str)).length -
        (smartAnswerMapping [⟨1, str "alpha"⟩] [(1, str "x")]).length ≠
      ([(1, str "x"), (9, str "y")] : List (Nat × Str)).length -
        (smartAnswerMapping [⟨1, str "alpha"⟩] [(1, str "x"), (9, str "y")]).length := by
  decide

/-- Claim C5, counterexample: on `"B\nC"` 100 % of the non-empty lines are
single option letters (≥ 70 %), yet the parser does not assign them
positionally: the shortcut additionally requires at least three such
lines, so the general path stores the whole text as answer 1. -/
theorem C5_threshold_counterexample :
    (let lines := ((splitLines (strip (preprocessAnswerText (str "B\nC")))).map strip).filter
        (fun l => ¬ l.isEmpty)
     10 * (lines.filterMap letterOf).length ≥ 7 * lines.length) ∧
    parseAnswers (str "B\nC") = [(1, str "B\nC")] ∧
    ([(1, str "B\nC")] : List (Nat × Str)) ≠ [(1, str "B"), (2, str "C")] := by
  decide

/-- Claim C6, counterexample: on the spec example
`"Q1. First (1) alpha (2) beta Q2. Second"` the parser does not return the
claimed `{1: "First (1) alpha (2) beta", 2: "Second"}`: the nested `(2)`
marker starts a new answer (its number was not seen before and is not
smaller than the active question by more than 3). -/
theorem C6_nested_example_counterexample :
    dget (parseAnswers (str "Q1. First (1) alpha (2) beta Q2. Second")) 1 =
      some (str "First (\n1) alpha (") ∧
    dget (parseAnswers (str "Q1. First (1) alpha (2) beta Q2. Second")) 2 ≠
      some (str "Second") := by
  decide

/-- Claim C6, amended: the actual parse of the spec example.  The `(1)`
marker is merged into answer 1 as a nested bullet (its number was already
seen), but `(2)` starts a new answer, which then absorbs the preamble-cut
`"beta Q"` and the real `Q2` marker body. -/
theorem C6_actual_output :
    parseAnswers (str "Q1. First (1) alpha (2) beta Q2. Second") =
      [(1, str "First (\n1) alpha ("), (2, str "beta Q\n2. Second")] := by
  decide

/-- Claim C8: evaluation at the failing input.  Both questions carry a
`*`-marked option line; the marker is stripped from the stored option text
of both questions (`"two"`, `"four"`), but only the first question's
`correct_answer` is set — the guard `not questions` in
`_parse_section_based` skips the store for every later question. -/
theorem C8_marker_only_first_question :
    (parseQuestions
        (str "SECTION A\nQ1. First q\nA) one\nB) two *\nQ2. Second q\nA) three\nB) four *")).map
      (fun q => (q.number, q.correct, q.options.map (fun o => sget o (str "B")))) =
    [(1, some (str "B"), some (some (str "two"))),
     (2, none, some (some (str "four")))] := by
  decide

/-- Claim C9, counterexample: a run on a first input leaves a non-empty
`_temp_correct` residue on the service object (the marked option was
recorded for a question that was then discarded as empty), and that
residue changes the output of a later run on a second input — the same
input parsed from a fresh object yields a different result, so an
invocation is not a pure function of its input text. -/
theorem C9_state_leak_counterexample :
    (parseQuestionsSt [] (str "SECTION A\nQ1.\nA) foo *")).2 ≠ [] ∧
    (parseQuestionsSt (parseQuestionsSt [] (str "SECTION A\nQ1.\nA) foo *")).2
        (str "SECTION A\nQ1. What is X?")).1 ≠
      (parseQuestionsSt [] (str "SECTION A\nQ1. What is X?")).1 := by
  decide

/- ── Helper lemmas: whitespace-only input ─────────────────────────────── -/

theorem splitLines_ne_nil (t : Str) : splitLines t ≠ [] := by
  induction t with
  | nil => simp [splitLines]
  | cons c rest ih =>
    simp only [splitLines]
    split
    · simp
    · cases h : splitLines rest with
      | nil => simp
      | cons a l => simp

theorem mem_of_mem_splitLines : ∀ {t l : Str} {c : Char},
    l ∈ splitLines t → c ∈ l → c ∈ t := by
  intro t
  induction t with
  | nil =>
    intro l c hl hc
    simp [splitLines] at hl
    subst hl
    simp at hc
  | cons a rest ih =>
    intro l c hl hc
    by_cases ha : a = '\n'
    · have hsl : splitLines (a :: rest) = [] :: splitLines rest := by
        simp [splitLines, ha]
      rw [hsl] at hl
      rcases List.mem_cons.mp hl with h1 | h1
      · subst h1; simp at hc
      · exact List.mem_cons_of_mem _ (ih h1 hc)
    · rcases hsp : splitLines rest with _ | ⟨h0, tl⟩
      · exact absurd hsp (splitLines_ne_nil rest)
      · have hsl : splitLines (a :: rest) = (a :: h0) :: tl := by
          simp [splitLines, ha, hsp]
        rw [hsl] at hl
        rcases List.mem_cons.mp hl with h1 | h1
        · subst h1
          rcases List.mem_cons.mp hc with h2 | h2
          · subst h2; exact List.mem_cons_self _ _
          · exact List.mem_cons_of_mem _
              (ih (by rw [hsp]; exact List.mem_cons_self _ _) h2)
        · exact List.mem_cons_of_mem _
            (ih (by rw [hsp]; exact List.mem_cons_of_mem _ h1) hc)

theorem strip_eq_nil_of_all_ws {l : Str} (h : ∀ c ∈ l, isWS c) : strip l = [] := by
  have h1 : stripL l = [] := by
    simp only [stripL]
    exact List.dropWhile_eq_nil_iff.mpr h
  simp only [strip, h1]
  rfl

theorem all_ws_of_strip_eq_nil {l : Str} (h : strip l = []) : ∀ c ∈ l, isWS c := by
  intro c hc
  simp only [strip, stripR, stripL] at h
  have h2 : (List.dropWhile isWS l).reverse.dropWhile isWS = [] := by
    rcases heq : (List.dropWhile isWS l).reverse.dropWhile isWS with _ | ⟨a, r⟩
    · rfl
    · rw [heq] at h; simp at h
  have hdrop : ∀ d ∈ List.dropWhile isWS l, isWS d := by
    intro d hd
    exact List.dropWhile_eq_nil_iff.mp h2 d (by simpa using hd)
  have hsplit := List.takeWhile_append_dropWhile isWS l
  rcases List.mem_append.mp (by rw [hsplit]; exact hc) with hmem | hmem
  · exact List.mem_takeWhile_imp hmem
  · exact hdrop c hmem

theorem go_blank {s : PState} {lines : List Str}
    (h : ∀ raw ∈ lines, strip raw = []) : go s lines = s := by
  induction lines generalizing s with
  | nil => rfl
  | cons raw rest ih =>
    have hr : strip raw = [] := h raw (List.mem_cons_self _ _)
    have : processLine s raw rest = s := by
      simp [processLine, hr]
    simp only [go, this]
    exact ih (fun l hl => h l (List.mem_cons_of_mem _ hl))

theorem plainGo_blank {lines : List Str}
    (h : ∀ raw ∈ lines, strip raw = []) : plainGo none lines = [] := by
  induction lines with
  | nil => rfl
  | cons raw rest ih =>
    have hr : strip raw = [] := h raw (List.mem_cons_self _ _)
    simp only [plainGo, hr]
    simp only [List.isEmpty_nil, if_true]
    exact ih (fun l hl => h l (List.mem_cons_of_mem _ hl))

/-- Claim C7: blank or whitespace-only input makes the question-paper
parser (`_parse_questions`) return the explicit empty question list and
the answer parser return the empty map; both are total functions, so no
exception is possible. -/
theorem C7_empty_input (t : Str) (h : strip t = []) :
    parseQuestions t = [] ∧ parseAnswers t = [] := by
  constructor
  · have hall : ∀ raw ∈ splitLines t, strip raw = [] := by
      intro raw hraw
      exact strip_eq_nil_of_all_ws
        (fun c hc => all_ws_of_strip_eq_nil h c (mem_of_mem_splitLines hraw hc))
    have hgo : go (initState []) (splitLines t) = initState [] := go_blank hall
    have hrun : runSection [] t = initState [] := by
      unfold runSection
      rw [hgo]
      decide
    simp only [parseQuestions, parseQuestionsSt, hrun]
    simp [initState, parsePlainQuestions, plainGo_blank hall, applyPhysics]
  · simp [parseAnswers, h]

/-- Witness for C7 at the concrete whitespace-only input `"   \n \t "`. -/
theorem C7_empty_input_witness :
    strip (str "   \n \t ") = [] ∧
    parseQuestions (str "   \n \t ") = [] ∧ parseAnswers (str "   \n \t ") = [] :=
  ⟨by decide, C7_empty_input (str "   \n \t ") (by decide)⟩

/-- Claim C10: any input with at least one non-whitespace character yields
a non-empty answer map: each terminal branch of `parse_answers` (pure-MCQ
shortcut, no-marker fallback, marker merge, final fallback) returns at
least one entry. -/
theorem C10_nonempty_result (t : Str) (h : strip t ≠ []) : parseAnswers t ≠ [] := by
  have h' : (strip t).isEmpty = false := by
    simpa using h
  unfold parseAnswers
  simp only [h', Bool.false_eq_true, if_false]
  split
  · next hmcq =>
    intro hc
    rw [hc] at hmcq
    simp at hmcq
  · split
    · simp
    · split
      · simp
      · next hcl => simpa using hcl

/-- Witness for C10 at the concrete input `"hello"`. -/
theorem C10_nonempty_result_witness :
    strip (str "hello") ≠ [] ∧ parseAnswers (str "hello") ≠ [] :=
  ⟨by decide, C10_nonempty_result (str "hello") (by decide)⟩

/- ── Helper lemmas: sequential numbering on the section-based path ────── -/

/-- The numbering invariant of the section-based scan state. -/
abbrev NumInv (s : PState) : Prop :=
  s.questions.map Question.number = List.range' 1 s.questions.length ∧
  s.globalQNum = s.questions.length + 1

theorem updateLast_map_of_fix {α β : Type} (f : α → α) (g : α → β)
    (hg : ∀ a, g (f a) = g a) : ∀ l : List α, (updateLast f l).map g = l.map g
  | [] => rfl
  | [a] => by simp [updateLast, hg]
  | a :: b :: rest => by
    have := updateLast_map_of_fix f g hg (b :: rest)
    simp only [updateLast, List.map_cons]
    rw [show updateLast f (b :: rest) = (updateLast f (b :: rest)) from rfl] at this ⊢
    simp only [List.map_cons] at this
    exact congrArg (g a :: ·) this

theorem updateLast_length {α : Type} (f : α → α) :
    ∀ l : List α, (updateLast f l).length = l.length
  | [] => rfl
  | [_] => rfl
  | a :: b :: rest => by
    simp only [updateLast, List.length_cons]
    exact congrArg (· + 1) (updateLast_length f (b :: rest))

theorem mergeOrAlt_number (r : Str) (o : List (Str × Str)) (q : Question) :
    (mergeOrAlt r o q).number = q.number := by
  unfold mergeOrAlt
  split <;> rfl

theorem flush_numInv (b : Bool) (s : PState) (h : NumInv s) : NumInv (flush b s) := by
  obtain ⟨h1, h2⟩ := h
  unfold flush
  split
  · exact ⟨h1, h2⟩
  split
  · exact ⟨h1, h2⟩
  split
  · refine ⟨?_, ?_⟩
    · show (updateLast (mergeOrAlt _ _) s.questions).map Question.number =
        List.range' 1 (updateLast (mergeOrAlt _ _) s.questions).length
      rw [updateLast_map_of_fix _ _ (mergeOrAlt_number _ _), updateLast_length]
      exact h1
    · show s.globalQNum = (updateLast (mergeOrAlt _ _) s.questions).length + 1
      rw [updateLast_length]
      exact h2
  · refine ⟨?_, ?_⟩
    · show (s.questions ++ [mkQuestion s _]).map Question.number =
        List.range' 1 (s.questions ++ [mkQuestion s _]).length
      rw [List.map_append, List.length_append]
      have hnum : [mkQuestion s (strip (joinSp s.curLines))].map Question.number =
          [s.globalQNum] := rfl
      rw [hnum, h1, h2]
      have hc := @List.range'_concat 1 1 s.questions.length
      simp only [List.length_cons, List.length_nil, Nat.zero_add, one_mul] at hc ⊢
      rw [hc]
      simp [Nat.add_comm]
    · show s.globalQNum + 1 = (s.questions ++ [mkQuestion s _]).length + 1
      rw [List.length_append, h2]
      simp

theorem flushIf_numInv (b : Bool) (s : PState) (h : NumInv s) : NumInv (flushIf b s) := by
  unfold flushIf
  split
  · exact flush_numInv b s h
  · exact h

theorem normalStart_numInv (s : PState) (q : QStart) (h : NumInv s) :
    NumInv (normalStart s q) := by
  unfold normalStart
  exact ⟨(flushIf_numInv false s h).1, (flushIf_numInv false s h).2⟩

theorem qStartStep_numInv (s : PState) (q : QStart) (r : Int) (h : NumInv s) :
    NumInv (qStartStep s q r) := by
  unfold qStartStep
  split
  · split
    · exact ⟨(flushIf_numInv true s h).1, (flushIf_numInv true s h).2⟩
    · split
      · exact ⟨(flushIf_numInv true s h).1, (flushIf_numInv true s h).2⟩
      · exact normalStart_numInv _ q
          ⟨(flushIf_numInv true s h).1, (flushIf_numInv true s h).2⟩
  · exact normalStart_numInv s q h

theorem contStep_numInv (s : PState) (line : Str) (h : NumInv s) :
    NumInv (contStep s line) := by
  unfold contStep
  split
  · exact h
  · split
    · split
      · exact ⟨h.1, h.2⟩
      · exact ⟨h.1, h.2⟩
    · exact ⟨h.1, h.2⟩

theorem processLine_numInv (s : PState) (raw : Str) (peek : List Str)
    (h : NumInv s) : NumInv (processLine s raw peek) := by
  unfold processLine
  split
  · exact h
  · split
    · unfold sectionHeaderStep
      exact ⟨(flush_numInv s.afterOr s h).1, (flush_numInv s.afterOr s h).2⟩
    · split
      · exact h
      · split
        · unfold orLineStep
          split
          · split
            · exact ⟨(flush_numInv false s h).1, (flush_numInv false s h).2⟩
            · exact h
          · exact h
        · split
          · exact h
          · unfold inSectionStep
            split
            · split
              · exact qStartStep_numInv s _ _ h
              · exact contStep_numInv s _ h
            · exact contStep_numInv s _ h

theorem go_numInv (lines : List Str) : ∀ s : PState, NumInv s → NumInv (go s lines) := by
  induction lines with
  | nil => intro s h; exact h
  | cons l rest ih =>
    intro s h
    exact ih _ (processLine_numInv s l rest h)

/-- Claim C1, amended part: on the section-based path the emitted question
list is numbered sequentially 1..N in emission order, for every input text
and every residual `_temp_correct` state — the output counter
`global_q_num`, not the source-embedded numbers, is stored. -/
theorem C1_section_path_sequential (tc : TempC) (t : Str) :
    (sectionQuestions tc t).map Question.number =
      List.range' 1 (sectionQuestions tc t).length := by
  have hinit : NumInv (initState tc) := by
    constructor <;> simp [initState]
  have hgo := go_numInv (splitLines t) (initState tc) hinit
  have hrun : NumInv (runSection tc t) := flushIf_numInv _ _ hgo
  exact hrun.1

/- ── Helper lemmas: the reconciler drops without counting ─────────────── -/

theorem dset_length_le {α : Type} (k : Nat) (v : α) :
    ∀ d : List (Nat × α), (dset d k v).length ≤ d.length + 1
  | [] => by simp [dset]
  | (k0, v0) :: r => by
    simp only [dset]
    split
    · simp
    · simpa [Nat.succ_le_succ_iff] using dset_length_le k v r

theorem dmem_cons {α : Type} (k0 : Nat) (v : α) (r : List (Nat × α)) (k' : Nat) :
    dmem ((k0, v) :: r) k' ↔ (k0 = k' ∨ dmem r k') := by
  simp only [dmem, dget]
  split
  · simp_all
  · simp_all

theorem dmem_dset {α : Type} (k : Nat) (v : α) :
    ∀ (d : List (Nat × α)) (k' : Nat), dmem (dset d k v) k' → k' = k ∨ dmem d k'
  | [], k', h => by
    simp only [dset] at h
    rw [dmem_cons] at h
    rcases h with h | h
    · left; omega
    · simp [dmem, dget] at h
  | (k0, v0) :: r, k', h => by
    simp only [dset] at h
    split at h
    · right
      rw [dmem_cons] at h ⊢
      exact h
    · rw [dmem_cons] at h
      rcases h with h | h
      · right; rw [dmem_cons]; exact Or.inl h
      · rcases dmem_dset k v r k' h with h1 | h1
        · exact Or.inl h1
        · right; rw [dmem_cons]; exact Or.inr h1

theorem mem_map_of_get? {l : List RQ} {i : Nat} {q : RQ}
    (h : l.get? i = some q) : q.number ∈ l.map RQ.number := by
  exact List.mem_map_of_mem _ (List.get?_mem h)

theorem map_eraseIdx_subset (l : List RQ) (i : Nat) :
    ∀ k, k ∈ (l.eraseIdx i).map RQ.number → k ∈ l.map RQ.number := by
  intro k hk
  rcases List.mem_map.mp hk with ⟨q, hq, rfl⟩
  exact List.mem_map_of_mem _ ((List.eraseIdx_sublist l i).subset hq)

theorem assignLoop_keys :
    ∀ (vs : List Str) (total : Nat) (m : List (Nat × Str)) (uqs : List RQ) (k : Nat),
      dmem (assignLoop total m uqs vs) k → dmem m k ∨ k ∈ uqs.map RQ.number := by
  intro vs
  induction vs with
  | nil => intro total m uqs k h; exact Or.inl h
  | cons v rest ih =>
    intro total m uqs k h
    cases uqs with
    | nil =>
      simp only [assignLoop, List.isEmpty_nil, if_true] at h
      exact Or.inl h
    | cons q0 ut =>
      simp only [assignLoop, List.isEmpty_cons, Bool.false_eq_true, if_false] at h
      split at h
      · rcases dmem_dset _ _ _ _ h with h1 | h1
        · subst h1; right; simp
        · exact Or.inl h1
      · split at h
        · next i hpick =>
          split at h
          · next q hget =>
            rcases ih total _ _ k h with h1 | h1
            · rcases dmem_dset _ _ _ _ h1 with h2 | h2
              · subst h2; exact Or.inr (mem_map_of_get? hget)
              · exact Or.inl h2
            · exact Or.inr (map_eraseIdx_subset _ _ _ h1)
          · exact ih total m (q0 :: ut) k h
        · exact ih total m (q0 :: ut) k h

theorem assignLoop_length :
    ∀ (vs : List Str) (total : Nat) (m : List (Nat × Str)) (uqs : List RQ),
      (assignLoop total m uqs vs).length ≤ m.length + vs.length := by
  intro vs
  induction vs with
  | nil => intro total m uqs; simp [assignLoop]
  | cons v rest ih =>
    intro total m uqs
    cases uqs with
    | nil =>
      simp only [assignLoop, List.isEmpty_nil, if_true, List.length_cons]
      omega
    | cons q0 ut =>
      simp only [assignLoop, List.isEmpty_cons, Bool.false_eq_true, if_false]
      split
      · have := dset_length_le q0.number v m
        simp only [List.length_cons]
        omega
      · split
        · next i hpick =>
          split
          · next q hget =>
            have h1 := ih total (dset m q.number v) ((q0 :: ut).eraseIdx i)
            have h2 := dset_length_le q.number v m
            simp only [List.length_cons]
            omega
          · have := ih total m (q0 :: ut)
            simp only [List.length_cons]
            omega
        · have := ih total m (q0 :: ut)
          simp only [List.length_cons]
          omega

/-- The direct-match pass: fold invariant for keys and sizes. -/
theorem directPass_aux (qs : List RQ) :
    ∀ (parsed : List (Nat × Str)) (m0 : List (Nat × Str)) (u0 : List Str),
      (∀ k, dmem m0 k → ∃ q ∈ qs, q.number = k) →
      (let r := parsed.foldl
          (fun (a : List (Nat × Str) × List Str) kv =>
            if qs.any (fun q => q.number = kv.1) then (dset a.1 kv.1 kv.2, a.2)
            else (a.1, a.2 ++ [kv.2])) (m0, u0)
       (∀ k, dmem r.1 k → ∃ q ∈ qs, q.number = k) ∧
       r.1.length + r.2.length ≤ m0.length + u0.length + parsed.length) := by
  intro parsed
  induction parsed with
  | nil => intro m0 u0 hk; exact ⟨hk, by simp⟩
  | cons kv rest ih =>
    intro m0 u0 hk
    simp only [List.foldl_cons]
    split
    · next hany =>
      have hk2 : ∀ k, dmem (dset m0 kv.1 kv.2) k → ∃ q ∈ qs, q.number = k := by
        intro k h
        rcases dmem_dset _ _ _ _ h with h1 | h1
        · subst h1
          rcases List.any_eq_true.mp hany with ⟨q, hq, hqn⟩
          exact ⟨q, hq, by simpa using hqn⟩
        · exact hk k h1
      have hrec := ih (dset m0 kv.1 kv.2) u0 hk2
      refine ⟨hrec.1, ?_⟩
      have h2 := hrec.2
      have h3 := dset_length_le kv.1 kv.2 m0
      simp only [List.length_cons] at h2 ⊢
      omega
    · have hrec := ih m0 (u0 ++ [kv.2]) hk
      refine ⟨hrec.1, ?_⟩
      have h2 := hrec.2
      simp only [List.length_append, List.length_cons, List.length_nil] at h2 ⊢
      omega

theorem directSplit_inv (qs : List RQ) (parsed : List (Nat × Str)) :
    (∀ k, dmem (directSplit qs parsed).1 k → ∃ q ∈ qs, q.number = k) ∧
    (directSplit qs parsed).1.length + (directSplit qs parsed).2.length ≤
      parsed.length := by
  have h := directPass_aux qs parsed [] [] (by intro k h; simp [dmem, dget] at h)
  refine ⟨h.1, ?_⟩
  have h2 := h.2
  simp only [List.length_nil, Nat.zero_add] at h2
  exact h2

/-- Claim C3, amended part: reconciliation only ever attributes answers to
authoritative question numbers, and never grows the map beyond the draft:
every key of the repaired map is the number of some stored question, and
the repaired map has at most as many entries as the draft — whatever does
not fit is dropped (without any count, see the counterexample). -/
theorem C3_unmatched_dropped (qs : List RQ) (d : List (Nat × Str)) :
    (∀ k, dmem (smartAnswerMapping qs d) k → ∃ q ∈ qs, q.number = k) ∧
    (smartAnswerMapping qs d).length ≤ d.length := by
  have hd := directSplit_inv qs d
  constructor
  · intro k h
    unfold smartAnswerMapping at h
    rcases assignLoop_keys _ _ _ _ k h with h1 | h1
    · exact hd.1 k h1
    · rcases List.mem_map.mp h1 with ⟨q, hq, rfl⟩
      exact ⟨q, (List.mem_filter.mp hq).1, rfl⟩
  · have h1 := assignLoop_length (directSplit qs d).2 (directSplit qs d).2.length
      (directSplit qs d).1
      (qs.filter (fun q => ¬ dmem (directSplit qs d).1 q.number))
    have h2 := hd.2
    unfold smartAnswerMapping
    omega

/- ── Helper lemmas: purity modulo the correct-answer side table ───────── -/

/-- The scan state with the cross-call `_temp_correct` table removed and
all stored `correct_answer` fields erased. -/
def eraseSt (s : PState) : PState :=
  { s with questions := s.questions.map eraseCorrect, tempCorrect := [] }

theorem eraseSt_ext {s s' : PState}
    (hq : s.questions.map eraseCorrect = s'.questions.map eraseCorrect)
    (h2 : s.currentSection = s'.currentSection)
    (h3 : s.sectionCfg = s'.sectionCfg)
    (h4 : s.sectionQCount = s'.sectionQCount)
    (h5 : s.curLines = s'.curLines)
    (h6 : s.curOptions = s'.curOptions)
    (h7 : s.inAr = s'.inAr)
    (h8 : s.afterOr = s'.afterOr)
    (h9 : s.orPrevQNum = s'.orPrevQNum)
    (h10 : s.globalQNum = s'.globalQNum) : eraseSt s = eraseSt s' := by
  unfold eraseSt
  cases s
  cases s'
  simp_all

theorem esQ {s s' : PState} (h : eraseSt s = eraseSt s') :
    s.questions.map eraseCorrect = s'.questions.map eraseCorrect := by
  have h1 : (eraseSt s).questions = (eraseSt s').questions := congrArg PState.questions h
  exact h1

theorem esCS {s s' : PState} (h : eraseSt s = eraseSt s') :
    s.currentSection = s'.currentSection := by
  have h1 : (eraseSt s).currentSection = (eraseSt s').currentSection := congrArg PState.currentSection h
  exact h1

theorem esCfg {s s' : PState} (h : eraseSt s = eraseSt s') :
    s.sectionCfg = s'.sectionCfg := by
  have h1 : (eraseSt s).sectionCfg = (eraseSt s').sectionCfg := congrArg PState.sectionCfg h
  exact h1

theorem esCnt {s s' : PState} (h : eraseSt s = eraseSt s') :
    s.sectionQCount = s'.sectionQCount := by
  have h1 : (eraseSt s).sectionQCount = (eraseSt s').sectionQCount := congrArg PState.sectionQCount h
  exact h1

theorem esCL {s s' : PState} (h : eraseSt s = eraseSt s') :
    s.curLines = s'.curLines := by
  have h1 : (eraseSt s).curLines = (eraseSt s').curLines := congrArg PState.curLines h
  exact h1

theorem esCO {s s' : PState} (h : eraseSt s = eraseSt s') :
    s.curOptions = s'.curOptions := by
  have h1 : (eraseSt s).curOptions = (eraseSt s').curOptions := congrArg PState.curOptions h
  exact h1

theorem esIA {s s' : PState} (h : eraseSt s = eraseSt s') :
    s.inAr = s'.inAr := by
  have h1 : (eraseSt s).inAr = (eraseSt s').inAr := congrArg PState.inAr h
  exact h1

theorem esAO {s s' : PState} (h : eraseSt s = eraseSt s') :
    s.afterOr = s'.afterOr := by
  have h1 : (eraseSt s).afterOr = (eraseSt s').afterOr := congrArg PState.afterOr h
  exact h1

theorem esOP {s s' : PState} (h : eraseSt s = eraseSt s') :
    s.orPrevQNum = s'.orPrevQNum := by
  have h1 : (eraseSt s).orPrevQNum = (eraseSt s').orPrevQNum := congrArg PState.orPrevQNum h
  exact h1

theorem esGQ {s s' : PState} (h : eraseSt s = eraseSt s') :
    s.globalQNum = s'.globalQNum := by
  have h1 : (eraseSt s).globalQNum = (eraseSt s').globalQNum := congrArg PState.globalQNum h
  exact h1

theorem eraseCorrect_mergeOrAlt (r : Str) (o : List (Str × Str)) (q : Question) :
    eraseCorrect (mergeOrAlt r o q) = mergeOrAlt r o (eraseCorrect q) := by
  unfold mergeOrAlt eraseCorrect
  split <;> rfl

theorem map_eraseCorrect_updateLast (r : Str) (o : List (Str × Str)) :
    ∀ l : List Question,
      (updateLast (mergeOrAlt r o) l).map eraseCorrect =
        updateLast (mergeOrAlt r o) (l.map eraseCorrect)
  | [] => rfl
  | [q] => by simp [updateLast, eraseCorrect_mergeOrAlt]
  | q :: q2 :: rest => by
    have ih := map_eraseCorrect_updateLast r o (q2 :: rest)
    simp only [updateLast, List.map_cons]
    simp only [List.map_cons] at ih
    rw [ih]

theorem isEmpty_of_length_eq {α β : Type} {l1 : List α} {l2 : List β}
    (h : l1.length = l2.length) : l1.isEmpty = l2.isEmpty := by
  cases l1 <;> cases l2 <;> simp_all

theorem eraseCorrect_mkQuestion {s s' : PState} (raw : Str)
    (h3 : s.sectionCfg = s'.sectionCfg)
    (h2 : s.currentSection = s'.currentSection)
    (h4 : s.sectionQCount = s'.sectionQCount)
    (h6 : s.curOptions = s'.curOptions)
    (h10 : s.globalQNum = s'.globalQNum) :
    eraseCorrect (mkQuestion s raw) = eraseCorrect (mkQuestion s' raw) := by
  unfold eraseCorrect mkQuestion flushMarks
  simp [h3, h2, h4, h6, h10]

theorem flush_sim (b : Bool) {s s' : PState} (h : eraseSt s = eraseSt s') :
    eraseSt (flush b s) = eraseSt (flush b s') := by
  have hq := esQ h
  have h2 := esCS h
  have h3 := esCfg h
  have h4 := esCnt h
  have h5 := esCL h
  have h6 := esCO h
  have h7 := esIA h
  have h8 := esAO h
  have h9 := esOP h
  have h10 := esGQ h
  have hlen : s.questions.length = s'.questions.length := by
    have hl := congrArg List.length hq
    simpa using hl
  have hqe : s.questions.isEmpty = s'.questions.isEmpty := isEmpty_of_length_eq hlen
  unfold flush
  rw [h5, hqe]
  split
  · exact h
  split
  · apply eraseSt_ext <;>
      first
        | rfl
        | exact hq | exact h2 | exact h3 | exact h4 | exact h8 | exact h9
        | exact h10
  split
  · apply eraseSt_ext <;>
      first
        | rfl
        | exact h2 | exact h3 | exact h4 | exact h8 | exact h9 | exact h10
        | (dsimp only
           rw [h6, map_eraseCorrect_updateLast, map_eraseCorrect_updateLast, hq])
  · apply eraseSt_ext <;>
      first
        | rfl
        | exact h2 | exact h3 | exact h8 | exact h9
        | (rw [h4]; done) | (rw [h10]; done)
        | (dsimp only
           rw [List.map_append, List.map_append, hq]
           congr 1
           simp only [List.map_cons, List.map_nil]
           rw [eraseCorrect_mkQuestion _ h3 h2 h4 h6 h10])

theorem flushIf_sim (b : Bool) {s s' : PState} (h : eraseSt s = eraseSt s') :
    eraseSt (flushIf b s) = eraseSt (flushIf b s') := by
  have h5 := esCL h
  unfold flushIf
  rw [h5]
  split
  · exact flush_sim b h
  · exact h

theorem normalStart_sim (q : QStart) {s s' : PState} (h : eraseSt s = eraseSt s') :
    eraseSt (normalStart s q) = eraseSt (normalStart s' q) := by
  have hf := flushIf_sim false h
  unfold normalStart
  dsimp only
  simp only [eraseSt, esQ hf, esCS hf, esCfg hf, esCnt hf, esCL hf, esCO hf,
    esIA hf, esAO hf, esOP hf, esGQ hf]

theorem qStartStep_sim (q : QStart) (r : Int) {s s' : PState}
    (h : eraseSt s = eraseSt s') :
    eraseSt (qStartStep s q r) = eraseSt (qStartStep s' q r) := by
  have h8 := esAO h
  have h9 := esOP h
  have hf := flushIf_sim true h
  unfold qStartStep
  dsimp only
  rw [h8, h9]
  split
  · split
    · simp only [eraseSt, esQ hf, esCS hf, esCfg hf, esCnt hf, esCL hf,
        esCO hf, esIA hf, esAO hf, esOP hf, esGQ hf]
    · split
      · simp only [eraseSt, esQ hf, esCS hf, esCfg hf, esCnt hf, esCL hf,
          esCO hf, esIA hf, esAO hf, esOP hf, esGQ hf]
      · refine normalStart_sim q ?_
        simp only [eraseSt, esQ hf, esCS hf, esCfg hf, esCnt hf, esCL hf,
          esCO hf, esIA hf, esAO hf, esOP hf, esGQ hf]
  · exact normalStart_sim q h

theorem contStep_sim (line : Str) {s s' : PState} (h : eraseSt s = eraseSt s') :
    eraseSt (contStep s line) = eraseSt (contStep s' line) := by
  have hq := esQ h
  have h5 := esCL h
  have h6 := esCO h
  have h7 := esIA h
  have hlen : s.questions.length = s'.questions.length := by
    have hl := congrArg List.length hq
    simpa using hl
  have hqe : s.questions.isEmpty = s'.questions.isEmpty := isEmpty_of_length_eq hlen
  unfold contStep
  rw [h5, hqe]
  split
  · exact h
  · split
    · split
      · simp only [eraseSt, hq, esCS h, esCfg h, esCnt h, h5, h6, h7,
          esAO h, esOP h, esGQ h]
      · simp only [eraseSt, hq, esCS h, esCfg h, esCnt h, h5, h6, h7,
          esAO h, esOP h, esGQ h]
    · simp only [eraseSt, hq, esCS h, esCfg h, esCnt h, h5, h6, h7,
        esAO h, esOP h, esGQ h]

theorem sectionHeaderStep_sim (secL : String) (mi : Option MarksInfo)
    (peek : List Str) {s s' : PState} (h : eraseSt s = eraseSt s') :
    eraseSt (sectionHeaderStep s secL mi peek) =
      eraseSt (sectionHeaderStep s' secL mi peek) := by
  have h8 := esAO h
  have hf : eraseSt (flush s.afterOr s) = eraseSt (flush s'.afterOr s') := by
    rw [h8]
    exact flush_sim s'.afterOr h
  unfold sectionHeaderStep
  dsimp only
  simp only [eraseSt, esQ hf, esCS hf, esCfg hf, esCnt hf, esCL hf, esCO hf,
    esIA hf, esAO hf, esOP hf, esGQ hf]

theorem orLineStep_sim {s s' : PState} (h : eraseSt s = eraseSt s') :
    eraseSt (orLineStep s) = eraseSt (orLineStep s') := by
  have h3 := esCfg h
  have h5 := esCL h
  have hf := flush_sim false h
  unfold orLineStep
  dsimp only
  rw [h3, h5]
  split
  · split
    · simp only [eraseSt, esQ hf, esCS hf, esCfg hf, esCnt hf, esCL hf,
        esCO hf, esIA hf, esAO hf, esOP hf, esGQ hf]
    · exact h
  · exact h

theorem processLine_sim (raw : Str) (peek : List Str) {s s' : PState}
    (h : eraseSt s = eraseSt s') :
    eraseSt (processLine s raw peek) = eraseSt (processLine s' raw peek) := by
  have h3 := esCfg h
  have h4 := esCnt h
  have h5 := esCL h
  have h8 := esAO h
  unfold processLine
  split
  · exact h
  · split
    · exact sectionHeaderStep_sim _ _ _ h
    · rw [h5]
      split
      · exact h
      · split
        · exact orLineStep_sim h
        · rw [h3]
          split
          · exact h
          · unfold inSectionStep
            rw [h4, h8]
            split
            · split
              · exact qStartStep_sim _ _ h
              · exact contStep_sim _ h
            · exact contStep_sim _ h

theorem go_sim (lines : List Str) : ∀ {s s' : PState}, eraseSt s = eraseSt s' →
    eraseSt (go s lines) = eraseSt (go s' lines) := by
  induction lines with
  | nil => intro s s' h; exact h
  | cons l rest ih =>
    intro s s' h
    exact ih (processLine_sim l rest h)

theorem runSection_sim (tc tc' : TempC) (t : Str) :
    eraseSt (runSection tc t) = eraseSt (runSection tc' t) := by
  have hinit : eraseSt (initState tc) = eraseSt (initState tc') := rfl
  have hgo := go_sim (splitLines t) hinit
  have h8 : (go (initState tc) (splitLines t)).afterOr =
      (go (initState tc') (splitLines t)).afterOr := esAO hgo
  unfold runSection
  rw [h8]
  exact flushIf_sim _ hgo

/-- Claim C9, amended part: the residual `_temp_correct` state influences
only the `correct_answer` fields of the output — two invocations of
`_parse_questions` on the same input text from any two residual states
produce the same question list after erasing `correct_answer`. -/
theorem C9_pure_modulo_correct (tc tc' : TempC) (t : Str) :
    (parseQuestionsSt tc t).1.map eraseCorrect =
      (parseQuestionsSt tc' t).1.map eraseCorrect := by
  have hrun := runSection_sim tc tc' t
  have hq : (runSection tc t).questions.map eraseCorrect =
      (runSection tc' t).questions.map eraseCorrect := esQ hrun
  have hlen : (runSection tc t).questions.length =
      (runSection tc' t).questions.length := by
    have hl := congrArg List.length hq
    simpa using hl
  have hqe : (runSection tc t).questions.isEmpty =
      (runSection tc' t).questions.isEmpty := isEmpty_of_length_eq hlen
  unfold parseQuestionsSt
  dsimp only
  rw [hqe]
  split
  · rfl
  · exact hq

/- ── Helper lemmas: single scan-loop steps under matcher hypotheses ───── -/

theorem processLine_header (s : PState) (raw : Str) (peek : List Str)
    (sec : String) (mi : Option MarksInfo)
    (hne : (strip raw).isEmpty = false)
    (hh : matchSectionHeader (strip raw) = some (sec, mi)) :
    processLine s raw peek = sectionHeaderStep s sec mi peek := by
  unfold processLine
  rw [hne, hh]
  rfl

theorem processLine_orLine (s : PState) (raw : Str) (peek : List Str)
    (hne : (strip raw).isEmpty = false)
    (hh : matchSectionHeader (strip raw) = none)
    (hmk : extractMarksInfo (strip raw) = none)
    (hor : isOrLine (strip raw) = true) :
    processLine s raw peek = orLineStep s := by
  unfold processLine
  rw [hne, hh, hmk, hor]
  rfl

theorem processLine_qstart (s : PState) (raw : Str) (peek : List Str)
    (cfg : SectionCfg) (q : QStart)
    (hne : (strip raw).isEmpty = false)
    (hh : matchSectionHeader (strip raw) = none)
    (hmk : extractMarksInfo (strip raw) = none)
    (hor : isOrLine (strip raw) = false)
    (hcfg : s.sectionCfg = some cfg)
    (hq : matchQuestionStartLine (strip raw) = some q)
    (hcond : ((cfg.numQuestions : Int) - (s.sectionQCount : Int)) > 0 ∨
      s.afterOr = true) :
    processLine s raw peek =
      qStartStep s q ((cfg.numQuestions : Int) - (s.sectionQCount : Int)) := by
  unfold processLine inSectionStep
  rw [hne, hh, hmk, hor, hcfg, hq]
  show (if ((cfg.numQuestions : Int) - (s.sectionQCount : Int)) > 0 ∨
        s.afterOr = true
      then qStartStep s q ((cfg.numQuestions : Int) - (s.sectionQCount : Int))
      else contStep s (strip raw)) = _
  rw [if_pos hcond]

theorem qStartStep_normal (s : PState) (q : QStart) (r : Int)
    (ha : s.afterOr = false) : qStartStep s q r = normalStart s q := by
  unfold qStartStep
  rw [ha]
  rfl

theorem qStartStep_orSame (s : PState) (q : QStart) (r : Int)
    (ha : s.afterOr = true) (hp : s.orPrevQNum = some q.number) :
    qStartStep s q r =
      { flushIf true s with
        curLines := [q.text]
        curOptions := []
        inAr := isAssertionStart q.text } := by
  unfold qStartStep
  rw [ha, hp, if_pos (Or.inr rfl)]
  rfl

theorem orLineStep_go (s : PState) (cfg : SectionCfg)
    (hcfg : s.sectionCfg = some cfg) (hic : cfg.internalChoice = true)
    (hcl : s.curLines.isEmpty = false) :
    orLineStep s = { flush false s with afterOr := true } := by
  unfold orLineStep
  rw [hcfg]
  dsimp only
  rw [hic, hcl]
  rfl

/- ── Helper lemmas: the flat-rendering round trip (claim C2) ──────────── -/

theorem splitLines_no_nl : ∀ {l : Str}, '\n' ∉ l → splitLines l = [l]
  | [], _ => rfl
  | c :: rest, h => by
    have hc : ¬ c = '\n' := fun he => h (he ▸ List.mem_cons_self c rest)
    have hr : '\n' ∉ rest := fun hm => h (List.mem_cons_of_mem c hm)
    show splitLines (c :: rest) = [c :: rest]
    unfold splitLines
    rw [if_neg hc, splitLines_no_nl hr]

theorem splitLines_append_nl : ∀ (l : Str), '\n' ∉ l → ∀ (rest : Str),
    splitLines (l ++ '\n' :: rest) = l :: splitLines rest
  | [], _, rest => by
    show splitLines ('\n' :: rest) = [] :: splitLines rest
    conv_lhs => unfold splitLines
    rw [if_pos rfl]
  | c :: cl, h, rest => by
    have hc : ¬ c = '\n' := fun he => h (he ▸ List.mem_cons_self c cl)
    have hcl : '\n' ∉ cl := fun hm => h (List.mem_cons_of_mem c hm)
    show splitLines (c :: (cl ++ '\n' :: rest)) = (c :: cl) :: splitLines rest
    conv_lhs => unfold splitLines
    rw [if_neg hc, splitLines_append_nl cl hcl rest]

theorem splitLines_joinNL : ∀ (ls : List Str), ls ≠ [] →
    (∀ l ∈ ls, '\n' ∉ l) → splitLines (joinNL ls) = ls
  | [], hne, _ => absurd rfl hne
  | [l], _, h => by
    show splitLines l = [l]
    exact splitLines_no_nl (h l (List.mem_cons_self l []))
  | l :: l2 :: rest, _, h => by
    have h1 : '\n' ∉ l := h l (List.mem_cons_self l (l2 :: rest))
    have ih := splitLines_joinNL (l2 :: rest) (by simp)
      (fun x hx => h x (List.mem_cons_of_mem l hx))
    show splitLines (l ++ ['\n'] ++ joinNL (l2 :: rest)) = l :: l2 :: rest
    rw [List.append_assoc]
    show splitLines (l ++ '\n' :: joinNL (l2 :: rest)) = l :: l2 :: rest
    rw [splitLines_append_nl l h1, ih]

theorem processLine_noHeader (raw : Str) (peek : List Str)
    (h : matchSectionHeader (strip raw) = none) :
    processLine (initState []) raw peek = initState [] := by
  unfold processLine
  split
  · rfl
  · rw [h]
    dsimp only
    split
    · rfl
    · split
      · rfl
      · rfl

theorem go_noOp : ∀ (lines : List Str),
    (∀ l ∈ lines, matchSectionHeader (strip l) = none) →
    go (initState []) lines = initState []
  | [], _ => rfl
  | l :: rest, h => by
    show go (processLine (initState []) l rest) rest = initState []
    rw [processLine_noHeader l rest (h l (List.mem_cons_self l rest))]
    exact go_noOp rest (fun x hx => h x (List.mem_cons_of_mem l hx))

theorem plainGo_step (cur : Option (Question × List Str)) (raw : Str)
    (rest : List Str) (m : QMarks)
    (hne : (strip raw).isEmpty = false)
    (hM : matchQuestionWithMarks (strip raw) = some m) :
    plainGo cur (raw :: rest) =
      (match cur with
       | none =>
         plainGo (some
           (⟨m.number, [], m.marks, inferTypeFromMarks m.marks, none, false,
             false, none, none⟩, [m.text])) rest
       | some (qc, txt) =>
         finishPlain qc txt ::
           plainGo (some
             (⟨m.number, [], m.marks, inferTypeFromMarks m.marks, none, false,
               false, none, none⟩, [m.text])) rest) := by
  cases cur with
  | none =>
    show plainGo none (raw :: rest) =
      plainGo (some
        (⟨m.number, [], m.marks, inferTypeFromMarks m.marks, none, false,
          false, none, none⟩, [m.text])) rest
    conv_lhs => unfold plainGo
    dsimp only
    rw [hne, hM]
    rfl
  | some p =>
    cases p with
    | mk qc txt =>
      show plainGo (some (qc, txt)) (raw :: rest) =
        finishPlain qc txt ::
          plainGo (some
            (⟨m.number, [], m.marks, inferTypeFromMarks m.marks, none, false,
              false, none, none⟩, [m.text])) rest
      conv_lhs => unfold plainGo
      dsimp only
      rw [hne, hM]
      rfl

theorem plainGo_render : ∀ (qs : List Question),
    (∀ q ∈ qs, (strip (renderLine q)).isEmpty = false ∧
      (matchQuestionWithMarks (strip (renderLine q))).map
        (fun m => (m.number, m.marks)) = some (q.number, q.marks)) →
    ∀ cur : Option (Question × List Str),
      (plainGo cur (qs.map renderLine)).map (fun p => (p.number, p.marks)) =
        (match cur with
         | none => []
         | some (qc, _) => [(qc.number, qc.marks)]) ++
          qs.map (fun q => (q.number, q.marks)) := by
  intro qs
  induction qs with
  | nil =>
    intro _ cur
    cases cur with
    | none => rfl
    | some p =>
      cases p with
      | mk qc txt => rfl
  | cons q rest ih =>
    intro h cur
    obtain ⟨hne, hmq⟩ := h q (List.mem_cons_self q rest)
    have hrest := fun x hx => h x (List.mem_cons_of_mem q hx)
    cases hM : matchQuestionWithMarks (strip (renderLine q)) with
    | none =>
      rw [hM] at hmq
      simp at hmq
    | some m =>
      rw [hM] at hmq
      simp only [Option.map_some', Option.some.injEq, Prod.mk.injEq] at hmq
      obtain ⟨hm1, hm2⟩ := hmq
      simp only [List.map_cons]
      rw [plainGo_step cur (renderLine q) (rest.map renderLine) m hne hM]
      cases cur with
      | none =>
        dsimp only
        rw [ih hrest (some (⟨m.number, [], m.marks, inferTypeFromMarks m.marks,
          none, false, false, none, none⟩, [m.text]))]
        dsimp only
        rw [hm1, hm2]
        rfl
      | some p =>
        cases p with
        | mk qc txt =>
          dsimp only
          rw [List.map_cons,
            ih hrest (some (⟨m.number, [], m.marks,
              inferTypeFromMarks m.marks, none, false, false, none, none⟩,
              [m.text]))]
          dsimp only
          rw [hm1, hm2]
          rfl

theorem applyPhysics_pairs : ∀ (l : List Question),
    (applyPhysics l).map (fun p => (p.number, p.marks)) =
      l.map (fun q => (q.number, physicsMarksByNumber q.number))
  | [] => rfl
  | a :: t => by
    have ih := applyPhysics_pairs t
    simp only [applyPhysics, List.map_cons] at ih ⊢
    rw [← ih]

/- ── Claim C2: the flat-rendering round trip ──────────────────────────── -/

/-- Claim C2, amended part: re-parsing the flat `"<n>. <text> (<m> marks)"`
rendering of a list of questions whose rendered lines contain no newline,
match no section-header pattern, and re-match the question-with-marks
pattern with their own number and marks, yields the same question count
with the same embedded numbers — but every re-parsed question's marks are
the CBSE-physics by-number table value for its number, not the rendered
marks. -/
theorem C2_roundtrip_count_and_marks (qs : List Question)
    (h : ∀ q ∈ qs,
      (strip (renderLine q)).isEmpty = false ∧
      matchSectionHeader (strip (renderLine q)) = none ∧
      '\n' ∉ renderLine q ∧
      (matchQuestionWithMarks (strip (renderLine q))).map
        (fun m => (m.number, m.marks)) = some (q.number, q.marks)) :
    (parseQuestions (renderFlat qs)).map (fun p => p.number) =
      qs.map (fun q => q.number) ∧
    (parseQuestions (renderFlat qs)).map (fun p => p.marks) =
      qs.map (fun q => physicsMarksByNumber q.number) := by
  cases qs with
  | nil => exact ⟨by decide, by decide⟩
  | cons q0 rest =>
    have hlines : ∀ l ∈ (q0 :: rest).map renderLine, '\n' ∉ l := by
      intro l hl
      obtain ⟨q, hq, hql⟩ := List.mem_map.mp hl
      exact hql ▸ (h q hq).2.2.1
    have hsl : splitLines (renderFlat (q0 :: rest)) =
        (q0 :: rest).map renderLine :=
      splitLines_joinNL _ (by simp) hlines
    have hhdrs : ∀ l ∈ (q0 :: rest).map renderLine,
        matchSectionHeader (strip l) = none := by
      intro l hl
      obtain ⟨q, hq, hql⟩ := List.mem_map.mp hl
      exact hql ▸ (h q hq).2.1
    have hrs : runSection [] (renderFlat (q0 :: rest)) = initState [] := by
      unfold runSection
      rw [hsl, go_noOp _ hhdrs]
      rfl
    have hfb : parseQuestions (renderFlat (q0 :: rest)) =
        applyPhysics (plainGo none ((q0 :: rest).map renderLine)) := by
      unfold parseQuestions parseQuestionsSt parsePlainQuestions
      dsimp only
      rw [hrs, hsl]
      rfl
    have hpairs : (plainGo none ((q0 :: rest).map renderLine)).map
        (fun p => (p.number, p.marks)) =
        (q0 :: rest).map (fun q => (q.number, q.marks)) := by
      have hp := plainGo_render (q0 :: rest)
        (fun q hq => ⟨(h q hq).1, (h q hq).2.2.2⟩) none
      simpa using hp
    have hnum : (plainGo none ((q0 :: rest).map renderLine)).map
        (fun p => p.number) = (q0 :: rest).map (fun q => q.number) := by
      have h1 := congrArg (List.map Prod.fst) hpairs
      simpa [List.map_map, Function.comp] using h1
    have hA : (applyPhysics (plainGo none ((q0 :: rest).map renderLine))).map
        (fun p => (p.number, p.marks)) =
        (q0 :: rest).map (fun q => (q.number, physicsMarksByNumber q.number)) := by
      rw [applyPhysics_pairs]
      have h2 : ∀ (L : List Question),
          L.map (fun q => (q.number, physicsMarksByNumber q.number)) =
            (L.map (fun p => p.number)).map
              (fun n => (n, physicsMarksByNumber n)) := by
        intro L
        rw [List.map_map]
        rfl
      exact (h2 _).trans
        ((congrArg (List.map (fun n => (n, physicsMarksByNumber n)))
          hnum).trans (h2 _).symm)
    constructor
    · rw [hfb]
      have h1 := congrArg (List.map Prod.fst) hA
      simpa [List.map_map, Function.comp] using h1
    · rw [hfb]
      have h1 := congrArg (List.map Prod.snd) hA
      simpa [List.map_map, Function.comp] using h1

/-- Witness for C2: a previously parsed one-question Section B paper
(marks 2) re-parses from its flat rendering with the same count and
number, and with the physics-table marks. -/
theorem C2_roundtrip_count_and_marks_witness :
    (parseQuestions (renderFlat
        (parseQuestions (str "SECTION B\nQ1. Explain induction")))).map
      (fun p => p.number) =
      (parseQuestions (str "SECTION B\nQ1. Explain induction")).map
        (fun q => q.number) ∧
    (parseQuestions (renderFlat
        (parseQuestions (str "SECTION B\nQ1. Explain induction")))).map
      (fun p => p.marks) =
      (parseQuestions (str "SECTION B\nQ1. Explain induction")).map
        (fun q => physicsMarksByNumber q.number) :=
  C2_roundtrip_count_and_marks
    (parseQuestions (str "SECTION B\nQ1. Explain induction")) (by decide)

/- ── Claim C4: the OR internal-choice merge ───────────────────────────── -/

/-- Claim C4: a section whose configuration expects internal choice, given
a header line, a question block, a lone `OR` line, and a second question
block carrying the same source-embedded number, yields exactly one
question, numbered 1, with the OR flag set and the two bodies joined by a
literal `"\nOR\n"` separator. -/
theorem C4_or_merge
    (t hdr l1 l2 : Str) (sec : String) (q1 q2 : QStart)
    (hsplit : splitLines t = [hdr, l1, str "OR", l2])
    (hhdrne : (strip hdr).isEmpty = false)
    (hhdr : matchSectionHeader (strip hdr) = some (sec, none))
    (hpeek : peekMarks [l1, str "OR", l2] = none)
    (hic : (buildCfg sec none).internalChoice = true)
    (hnum : 0 < (buildCfg sec none).numQuestions)
    (h1ne : (strip l1).isEmpty = false)
    (h1hdr : matchSectionHeader (strip l1) = none)
    (h1mk : extractMarksInfo (strip l1) = none)
    (h1or : isOrLine (strip l1) = false)
    (h1q : matchQuestionStartLine (strip l1) = some q1)
    (h2ne : (strip l2).isEmpty = false)
    (h2hdr : matchSectionHeader (strip l2) = none)
    (h2mk : extractMarksInfo (strip l2) = none)
    (h2or : isOrLine (strip l2) = false)
    (h2q : matchQuestionStartLine (strip l2) = some q2)
    (hqn : q2.number = q1.number)
    (hs1 : strip q1.text = q1.text) (h1t : q1.text.isEmpty = false)
    (hs2 : strip q2.text = q2.text) (h2t : q2.text.isEmpty = false)
    (hpm1 : preserveMath q1.text = q1.text)
    (hpm2 : preserveMath q2.text = q2.text) :
    (sectionQuestions [] t).map (fun q => (q.number, q.hasOr, q.text)) =
      [(1, true, q1.text ++ str "\nOR\n" ++ q2.text)] := by
  have hj1 : strip (joinSp [q1.text]) = q1.text := hs1
  have hj2 : strip (joinSp [q2.text]) = q2.text := hs2
  have e1 : processLine (initState []) hdr [l1, str "OR", l2] =
      (⟨[], some sec, some (buildCfg sec none), 0, [], [], false, false,
        none, 1, []⟩ : PState) := by
    rw [processLine_header (initState []) hdr [l1, str "OR", l2] sec none
      hhdrne hhdr]
    unfold sectionHeaderStep
    rw [show resolveMarks none [l1, str "OR", l2] = none from hpeek]
    rfl
  have e2 : processLine
      (⟨[], some sec, some (buildCfg sec none), 0, [], [], false, false,
        none, 1, []⟩ : PState) l1 [str "OR", l2] =
      (⟨[], some sec, some (buildCfg sec none), 0, [q1.text], [],
        isAssertionStart q1.text, false, some q1.number, 1, []⟩ : PState) := by
    rw [processLine_qstart _ l1 [str "OR", l2] (buildCfg sec none) q1
      h1ne h1hdr h1mk h1or rfl h1q
      (Or.inl (by
        show ((buildCfg sec none).numQuestions : Int) - ((0 : Nat) : Int) > 0
        omega))]
    rw [qStartStep_normal _ q1 _ rfl]
    rfl
  have e3 : processLine
      (⟨[], some sec, some (buildCfg sec none), 0, [q1.text], [],
        isAssertionStart q1.text, false, some q1.number, 1, []⟩ : PState)
      (str "OR") [l2] =
      (⟨[mkQuestion
          (⟨[], some sec, some (buildCfg sec none), 0, [q1.text], [],
            isAssertionStart q1.text, false, some q1.number, 1, []⟩ : PState)
          q1.text],
        some sec, some (buildCfg sec none), 1, [], [], false, true,
        some q1.number, 2, []⟩ : PState) := by
    rw [processLine_orLine _ (str "OR") [l2] (by decide) (by decide)
      (by decide) (by decide)]
    rw [orLineStep_go
      (⟨[], some sec, some (buildCfg sec none), 0, [q1.text], [],
        isAssertionStart q1.text, false, some q1.number, 1, []⟩ : PState)
      (buildCfg sec none) rfl hic rfl]
    unfold flush
    dsimp only
    simp only [List.isEmpty_cons, Bool.false_eq_true, if_false]
    rw [hj1, h1t]
    simp only [Bool.false_eq_true, if_false, false_and, List.nil_append]
    rfl
  have e4 : processLine
      (⟨[mkQuestion
          (⟨[], some sec, some (buildCfg sec none), 0, [q1.text], [],
            isAssertionStart q1.text, false, some q1.number, 1, []⟩ : PState)
          q1.text],
        some sec, some (buildCfg sec none), 1, [], [], false, true,
        some q1.number, 2, []⟩ : PState) l2 [] =
      (⟨[mkQuestion
          (⟨[], some sec, some (buildCfg sec none), 0, [q1.text], [],
            isAssertionStart q1.text, false, some q1.number, 1, []⟩ : PState)
          q1.text],
        some sec, some (buildCfg sec none), 1, [q2.text], [],
        isAssertionStart q2.text, true, some q1.number, 2, []⟩ : PState) := by
    rw [processLine_qstart _ l2 [] (buildCfg sec none) q2
      h2ne h2hdr h2mk h2or rfl h2q (Or.inr rfl)]
    rw [qStartStep_orSame _ q2 _ rfl (by rw [hqn])]
    rfl
  have hgo : go (initState []) [hdr, l1, str "OR", l2] =
      (⟨[mkQuestion
          (⟨[], some sec, some (buildCfg sec none), 0, [q1.text], [],
            isAssertionStart q1.text, false, some q1.number, 1, []⟩ : PState)
          q1.text],
        some sec, some (buildCfg sec none), 1, [q2.text], [],
        isAssertionStart q2.text, true, some q1.number, 2, []⟩ : PState) := by
    show go (processLine (initState []) hdr [l1, str "OR", l2])
      [l1, str "OR", l2] = _
    rw [e1]
    show go (processLine _ l1 [str "OR", l2]) [str "OR", l2] = _
    rw [e2]
    show go (processLine _ (str "OR") [l2]) [l2] = _
    rw [e3]
    show go (processLine _ l2 []) [] = _
    rw [e4]
    rfl
  unfold sectionQuestions runSection
  rw [hsplit, hgo]
  show (flush true
      (⟨[mkQuestion
          (⟨[], some sec, some (buildCfg sec none), 0, [q1.text], [],
            isAssertionStart q1.text, false, some q1.number, 1, []⟩ : PState)
          q1.text],
        some sec, some (buildCfg sec none), 1, [q2.text], [],
        isAssertionStart q2.text, true, some q1.number, 2,
        []⟩ : PState)).questions.map (fun q => (q.number, q.hasOr, q.text)) = _
  unfold flush
  dsimp only
  simp only [List.isEmpty_cons, Bool.false_eq_true, if_false]
  rw [hj2, h2t]
  simp only [Bool.false_eq_true, if_false]
  rw [if_pos (by simp : True ∧ ¬ False)]
  dsimp only [updateLast]
  simp only [List.map_cons, List.map_nil]
  unfold mergeOrAlt mkQuestion
  dsimp only
  rw [hpm1, hpm2]
  rfl

/-- Witness for C4: a Section B paper (internal choice expected) with two
`Q7.` blocks around a lone `OR` line merges into one question. -/
theorem C4_or_merge_witness :
    (sectionQuestions []
        (str "SECTION B\nQ7. State the first law\nOR\nQ7. Define entropy")).map
      (fun q => (q.number, q.hasOr, q.text)) =
      [(1, true,
        str "State the first law" ++ str "\nOR\n" ++ str "Define entropy")] :=
  C4_or_merge
    (str "SECTION B\nQ7. State the first law\nOR\nQ7. Define entropy")
    (str "SECTION B") (str "Q7. State the first law")
    (str "Q7. Define entropy")
    "B" ⟨7, str "State the first law"⟩ ⟨7, str "Define entropy"⟩
    (by decide) (by decide) (by decide) (by decide) (by decide) (by decide)
    (by decide) (by decide) (by decide) (by decide) (by decide)
    (by decide) (by decide) (by decide) (by decide) (by decide)
    (by decide) (by decide) (by decide) (by decide) (by decide)
    (by decide) (by decide)

/- ── Claim C5: the pure-MCQ positional shortcut ───────────────────────── -/

/-- Claim C5, amended part: when at least three of the non-empty
(preprocessed, stripped) lines are single optionally-parenthesised option
letters A–D and those lines make up at least 70 % of the non-empty lines,
`parse_answers` assigns the letters positionally (the i-th matching line
becomes the answer to question i, upper-cased), bypassing the general
marker-splitting path. -/
theorem C5_mcq_shortcut (t : Str)
    (hne : (strip t).isEmpty = false)
    (h3 : 3 ≤ (mcqLetters (preprocessAnswerText t)).length)
    (h7 : 7 * (mcqLines (preprocessAnswerText t)).length ≤
      10 * (mcqLetters (preprocessAnswerText t)).length) :
    parseAnswers t =
      ((mcqLetters (preprocessAnswerText t)).zip
          (List.range (mcqLetters (preprocessAnswerText t)).length)).map
        (fun p => (p.2 + 1, [p.1])) := by
  have hmcq : tryPureMcq (preprocessAnswerText t) =
      ((mcqLetters (preprocessAnswerText t)).zip
          (List.range (mcqLetters (preprocessAnswerText t)).length)).map
        (fun p => (p.2 + 1, [p.1])) := by
    unfold tryPureMcq
    dsimp only
    rw [show ((splitLines (strip (preprocessAnswerText t))).map strip).filter
        (fun l => ¬ l.isEmpty) = mcqLines (preprocessAnswerText t) from rfl]
    rw [show (mcqLines (preprocessAnswerText t)).filterMap letterOf =
        mcqLetters (preprocessAnswerText t) from rfl]
    rw [if_pos]
    simp only [Bool.and_eq_true, decide_eq_true_eq]
    exact ⟨h3, h7⟩
  have hlen : (((mcqLetters (preprocessAnswerText t)).zip
      (List.range (mcqLetters (preprocessAnswerText t)).length)).map
        (fun p => (p.2 + 1, [p.1]))).length =
      (mcqLetters (preprocessAnswerText t)).length := by
    simp [List.length_zip]
  have hne2 : ¬ ((((mcqLetters (preprocessAnswerText t)).zip
      (List.range (mcqLetters (preprocessAnswerText t)).length)).map
        (fun p => (p.2 + 1, [p.1]))).isEmpty = true) := by
    intro hE
    rw [List.isEmpty_iff] at hE
    rw [hE] at hlen
    simp at hlen
    omega
  unfold parseAnswers
  rw [hne]
  simp only [Bool.false_eq_true, if_false]
  rw [hmcq, if_pos hne2]

/-- Witness for C5: the spec's four-line input evaluates through the
shortcut to the positional map `{1: A, 2: B, 3: C, 4: D}`. -/
theorem C5_mcq_shortcut_witness :
    parseAnswers (str "A\nB\n(C)\nD") =
      ((mcqLetters (preprocessAnswerText (str "A\nB\n(C)\nD"))).zip
          (List.range
            (mcqLetters (preprocessAnswerText (str "A\nB\n(C)\nD"))).length)).map
        (fun p => (p.2 + 1, [p.1])) ∧
    parseAnswers (str "A\nB\n(C)\nD") =
      [(1, str "A"), (2, str "B"), (3, str "C"), (4, str "D")] :=
  ⟨C5_mcq_shortcut (str "A\nB\n(C)\nD") (by decide) (by decide) (by decide),
   by decide⟩

end K12
